import Mathlib

/-!
Verification development for the block-level Markdown recognizer of this
repository (src/mistune/block_parser.py).  The source text is modelled as a
list of characters; positions are natural number indices, matching Python's
code-point string indices.  Regular-expression rules of the source are
translated into executable character scanners; stateful code is explicit
state passing.  Components of the repository that are not part of
block_parser.py (the parser core, the list assembler, and small helpers)
are modelled from the specification and marked as such in their doc
comments.
-/

namespace Mistune

/-- Source buffer: Python string as a list of code points. -/
abbrev Src := List Char

/-- The backtick character. -/
def tick : Char := Char.ofNat 96

/-- Characters of the blank-line class `[ \t\v\f]` of BlockParser.BLANK_LINE. -/
def isBlankC (c : Char) : Bool :=
  c == ' ' || c == '\t' || c == Char.ofNat 11 || c == Char.ofNat 12

/-- Python `\s` whitespace class (for `str.strip` and `\s` in patterns). -/
def isWsC (c : Char) : Bool :=
  c == ' ' || c == '\t' || c == '\n' || c == '\r' ||
  c == Char.ofNat 11 || c == Char.ofNat 12

/-- The `[ \t]` class. -/
def isSpTab (c : Char) : Bool := c == ' ' || c == '\t'

/-- ASCII decimal digit. -/
def isDigitC (c : Char) : Bool := '0' ≤ c && c ≤ '9'

/-- ASCII letter. -/
def isAlphaC (c : Char) : Bool := ('a' ≤ c && c ≤ 'z') || ('A' ≤ c && c ≤ 'Z')

/-- Character of an HTML tag name after the first (letters, digits, `-`). -/
def isTagC (c : Char) : Bool := isAlphaC c || isDigitC c || c == '-'

/-- String literal to character list (Python string). -/
def s2l (s : String) : Src := s.toList

/-- Current line of a suffix: the characters before the next newline. -/
def takeLine (l : Src) : Src := l.takeWhile (fun c => !(c == '\n'))

/-- Length of the leading run of a given character. -/
def countPre (c : Char) (l : Src) : Nat := (l.takeWhile (fun a => a == c)).length

/-- Python `str.strip()` (no argument): strip whitespace on both ends. -/
def pyStrip (l : Src) : Src :=
  ((l.dropWhile isWsC).reverse.dropWhile isWsC).reverse

/-- Python `str.strip('\n')`: strip newlines on both ends. -/
def stripNl (l : Src) : Src :=
  ((l.dropWhile (fun c => c == '\n')).reverse.dropWhile (fun c => c == '\n')).reverse

/-- True when every character satisfies `isSpTab`. -/
def allSpTab (l : Src) : Bool := l.all isSpTab

/-- True when the string is whitespace only (Python `not s.strip()`). -/
def allWs (l : Src) : Bool := l.all isWsC

/-- `^` of a multiline Python regex matches at position 0 or right after a newline. -/
def lineStart (src : Src) (p : Nat) : Bool :=
  p == 0 || src.getD (p - 1) 'x' == '\n'

/-- Split a string into lines, each keeping its trailing newline (the final
line may lack one).  Helper for the multiline `re.sub` calls of the source. -/
def splitGo : Src → Src → List Src
  | [], acc => if acc.isEmpty then [] else [acc.reverse]
  | c :: l, acc =>
    if c == '\n' then (c :: acc).reverse :: splitGo l []
    else splitGo l (c :: acc)

/-- Lines of a string, newlines kept. -/
def splitLinesKeep (l : Src) : List Src := splitGo l []

/-- Concatenation of a list of strings. -/
def joinL (ls : List Src) : Src := ls.foldr (fun a b => a ++ b) []

/-- Apply a transformation to every line (model of a `re.M` anchored `re.sub`). -/
def mapLines (f : Src → Src) (l : Src) : Src := joinL ((splitLinesKeep l).map f)

/-- One substitution step of `_BLOCK_QUOTE_LEADING = ^ *>` on a line:
remove the leading spaces and the following quote marker, if present. -/
def stripQuoteMark (line : Src) : Src :=
  let sp := countPre ' ' line
  match line.drop sp with
  | c :: r => if c == '>' then r else line
  | [] => line

/-- One substitution step of `_BLOCK_QUOTE_TRIM = ^ ?` on a line:
remove one leading space, if present. -/
def stripOneSpace (line : Src) : Src :=
  match line with
  | ' ' :: r => r
  | l => l

/-- One substitution step of `_INDENT_CODE_TRIM = ^ {1,4}` on a line:
remove up to four leading spaces. -/
def stripIndent (line : Src) : Src :=
  let sp := countPre ' ' line
  line.drop (min sp 4)

/-- `_AXT_HEADING_TRIM = (\s+|^)#+\s*$` applied by `re.sub` to an already
stripped heading text: drop a trailing run of `#` together with the
whitespace run before it; a text that is entirely `#` becomes empty. -/
def axtTrim (text : Src) : Src :=
  let r := text.reverse
  let hashes := countPre '#' r
  if hashes == 0 then text
  else
    let r2 := r.drop hashes
    let ws := (r2.takeWhile isWsC).length
    if ws == 0 then
      if r2.isEmpty then [] else text
    else
      (r2.drop ws).reverse

/-- `_LINE_BLANK_END = \n[ \t]*\n$` searched in a string: the string ends
with a newline, a run of spaces/tabs, and another newline. -/
def lineBlankEnd (l : Src) : Bool :=
  match l.reverse with
  | c :: r => c == '\n' && (r.dropWhile isSpTab).headD 'x' == '\n'
  | [] => false

/-- `_BLANK_TO_LINE = [ \t]*\n` matched at a position: number of characters
consumed when the remainder starts with spaces/tabs followed by a newline. -/
def blankToLine (l : Src) : Option Nat :=
  let ws := (l.takeWhile isSpTab).length
  match l.drop ws with
  | c :: _ => if c == '\n' then some (ws + 1) else none
  | [] => none

/-- A regex match: matched rule name, start and end positions, and the
named capture groups.  Group 0 is recoverable from the source span. -/
structure RMatch where
  rule : String
  mstart : Nat
  mend : Nat
  groups : List (String × Src)
deriving DecidableEq, Repr

/-- Named group access (`m.group(name)`). -/
def RMatch.grp (m : RMatch) (name : String) : Src :=
  match m.groups.find? (fun g => g.fst == name) with
  | some g => g.snd
  | none => []

/-- One blank line `[ \t\v\f]*\n`: characters consumed, if it matches. -/
def blankLine1 : Src → Option Nat
  | [] => none
  | c :: l =>
    if c == '\n' then some 1
    else if isBlankC c then (blankLine1 l).map (· + 1)
    else none

/-- Greedy `([ \t\v\f]*\n)+`: total characters of a maximal run of blank
lines beginning at the head of the suffix. -/
def blankRunGo : Nat → Src → Option Nat
  | 0, _ => none
  | fuel + 1, l =>
    match blankLine1 l with
    | none => none
    | some n =>
      match blankRunGo fuel (l.drop n) with
      | some k => some (n + k)
      | none => some n

/-- `BLANK_LINE = (^[ \t\v\f]*\n)+` matched at the head of a suffix. -/
def blankRun (l : Src) : Option Nat := blankRunGo (l.length + 1) l

/-- Tail of the `thematic_break` rule after the first marker character:
the rest of the line must consist of the marker character and spaces/tabs,
with at least three markers in total. -/
def themRest (c : Char) : Src → Nat → Bool
  | [], n => decide (3 ≤ n)
  | a :: l, n =>
    if a == c then themRest c l (n + 1)
    else if isSpTab a then themRest c l n
    else false

/-- `thematic_break = ^ {0,3}((?:-[ \t]*){3,}|(?:_[ \t]*){3,}|(?:\*[ \t]*){3,})$`. -/
def coreThematic (l : Src) : Option (Nat × List (String × Src)) :=
  let line := takeLine l
  let k := min (countPre ' ' line) 3
  match line.drop k with
  | c :: r =>
    if (c == '-' || c == '_' || c == '*') && themRest c r 1 then
      some (line.length, [])
    else none
  | [] => none

/-- `fenced_code = ^(?P<fenced_1> {0,3})(?P<fenced_2>X{3,})[ \t]*(?P<fenced_3>.*?)$`
where `X` is a backtick or a tilde. -/
def coreFenced (l : Src) : Option (Nat × List (String × Src)) :=
  let line := takeLine l
  let k := min (countPre ' ' line) 3
  let rest := line.drop k
  match rest with
  | c :: _ =>
    if c == tick || c == '~' then
      let n := countPre c rest
      if 3 ≤ n then
        let info := (rest.drop n).dropWhile isSpTab
        some (line.length,
          [("fenced_1", line.take k), ("fenced_2", rest.take n), ("fenced_3", info)])
      else none
    else none
  | [] => none

/-- `axt_heading = ^ {0,3}(?P<axt_1>#{1,6})(?!#+)(?P<axt_2>[ \t]*|[ \t]+.*?)$`. -/
def coreAxt (l : Src) : Option (Nat × List (String × Src)) :=
  let line := takeLine l
  let k := min (countPre ' ' line) 3
  let rest := line.drop k
  let n := countPre '#' rest
  if 1 ≤ n && n ≤ 6 then
    let after := rest.drop n
    match after with
    | [] => some (line.length, [("axt_1", rest.take n), ("axt_2", [])])
    | c :: _ =>
      if isSpTab c then
        some (line.length, [("axt_1", rest.take n), ("axt_2", after)])
      else none
  else none

/-- `setex_heading = ^ {0,3}(?P<setext_1>=|-){1,}[ \t]*$`; the group holds
the last repetition, as in Python. -/
def coreSetex (l : Src) : Option (Nat × List (String × Src)) :=
  let line := takeLine l
  let k := min (countPre ' ' line) 3
  let rest := line.drop k
  let run := rest.takeWhile (fun c => c == '=' || c == '-')
  if run.isEmpty then none
  else if allSpTab (rest.drop run.length) then
    some (line.length, [("setext_1", [run.getLastD 'x'])])
  else none

/-- `list = ^(?P<list_1> {0,3})(?P<list_2>[\*\+-]|\d{1,9}[.)])(?P<list_3>[ \t]*|[ \t].+)$`. -/
def coreList (l : Src) : Option (Nat × List (String × Src)) :=
  let line := takeLine l
  let k := min (countPre ' ' line) 3
  let rest := line.drop k
  let parsed : Option (Src × Src) :=
    match rest with
    | c :: r =>
      if c == '*' || c == '+' || c == '-' then some ([c], r)
      else
        let ds := rest.takeWhile isDigitC
        if 1 ≤ ds.length && ds.length ≤ 9 then
          match rest.drop ds.length with
          | s :: r2 => if s == '.' || s == ')' then some (ds ++ [s], r2) else none
          | [] => none
        else none
    | [] => none
  match parsed with
  | none => none
  | some (marker, r2) =>
    if allSpTab r2 then
      some (line.length, [("list_1", line.take k), ("list_2", marker), ("list_3", r2)])
    else
      match r2 with
      | c :: rst =>
        if isSpTab c && !rst.isEmpty then
          some (line.length, [("list_1", line.take k), ("list_2", marker), ("list_3", r2)])
        else none
      | [] => none

/-- `block_quote = ^ {0,3}>(?P<quote_1>.*?)$`. -/
def coreQuote (l : Src) : Option (Nat × List (String × Src)) :=
  let line := takeLine l
  let k := min (countPre ' ' line) 3
  match line.drop k with
  | c :: r => if c == '>' then some (line.length, [("quote_1", r)]) else none
  | [] => none

/-- Scanner for `LINK_LABEL = (?:[^\\\[\]]|\\.){0,500}` (the helper pattern
of helpers.py; modelled from the spec's reference-link description):
consumes label characters until an unescaped closing bracket, allowing
backslash escapes, up to 500 repetitions.  Returns the label text and the
number of characters consumed. -/
def labelScan : Src → Nat → Option (Src × Nat)
  | [], _ => none
  | c :: l, cap =>
    if c == ']' then some ([], 0)
    else if cap == 0 then none
    else if c == '[' then none
    else if c == '\\' then
      match l with
      | [] => none
      | d :: l2 =>
        if d == '\n' then none
        else
          match labelScan l2 (cap - 1) with
          | some (lab, n) => some (c :: d :: lab, n + 2)
          | none => none
    else
      match labelScan l (cap - 1) with
      | some (lab, n) => some (c :: lab, n + 1)
      | none => none

/-- `ref_link = ^ {0,3}\[(?P<link_1>LINK_LABEL)\]:`. -/
def coreRefLink (l : Src) : Option (Nat × List (String × Src)) :=
  let k := min (countPre ' ' l) 3
  match l.drop k with
  | c :: r =>
    if c == '[' then
      match labelScan r 500 with
      | some (lab, n) =>
        match r.drop n with
        | b :: c2 :: _ =>
          if b == ']' && c2 == ':' then some (k + n + 3, [("link_1", lab)])
          else none
        | _ => none
      | none => none
    else none
  | [] => none

/-- `RAW_HTML = ^ {0,3}(</?TAGNAME|<!--|<\?|<![A-Z]|<!\[CDATA\[)` with
`HTML_TAGNAME = [A-Za-z][A-Za-z0-9-]*` (the helper pattern of helpers.py,
modelled from the spec's raw-HTML description).  The alternatives are
tried in source order. -/
def coreRawHtml (l : Src) : Option (Nat × List (String × Src)) :=
  let k := min (countPre ' ' l) 3
  let r := l.drop k
  match r with
  | '<' :: r1 =>
    let tagTry : Option Src :=
      match r1 with
      | '/' :: c :: r2 =>
        if isAlphaC c then some ('<' :: '/' :: c :: r2.takeWhile isTagC) else none
      | c :: r2 =>
        if isAlphaC c then some ('<' :: c :: r2.takeWhile isTagC) else none
      | [] => none
    let opener : Option Src :=
      match tagTry with
      | some t => some t
      | none =>
        if (s2l "!--").isPrefixOf r1 then some (s2l "<!--")
        else if (s2l "?").isPrefixOf r1 then some (s2l "<?")
        else
          match r1 with
          | '!' :: c :: _ =>
            if 'A' ≤ c && c ≤ 'Z' then some (['<', '!', c])
            else if (s2l "![CDATA[").isPrefixOf r1 then some (s2l "<![CDATA[")
            else none
          | _ => none
    opener.map (fun o => (k + o.length, [("g1", o)]))
  | _ => none

/-- Modelled from the spec: PRE_TAGS of helpers.py (absent from src/), the
pre-formatted tag names whose content is scanned to a literal closing tag. -/
def PRE_TAGS : List String := ["pre", "script", "style", "textarea"]

/-- Modelled from the spec: BLOCK_TAGS of helpers.py (absent from src/), a
representative set of lowercase block-level HTML tag names. -/
def BLOCK_TAGS : List String :=
  ["address", "article", "aside", "blockquote", "body", "caption", "center",
   "col", "colgroup", "dd", "details", "dialog", "div", "dl", "dt",
   "fieldset", "figcaption", "figure", "footer", "form", "h1", "h2", "h3",
   "h4", "h5", "h6", "head", "header", "hr", "html", "iframe", "legend",
   "li", "main", "menu", "nav", "ol", "optgroup", "option", "p", "section",
   "summary", "table", "tbody", "td", "tfoot", "th", "thead", "title",
   "tr", "ul"]

/-- `BLOCK_HTML = ^ {0,3}(?:(?:</?(BLOCK|PRE)(?:[ \t]+|\n|$))|<!--|<\?|<![A-Z]|<!\[CDATA\[)`.
The tag alternative requires a listed (lowercase) tag name followed by
whitespace, a newline, or the end of input. -/
def coreBlockHtml (l : Src) : Option (Nat × List (String × Src)) :=
  let k := min (countPre ' ' l) 3
  let r := l.drop k
  match r with
  | '<' :: r1 =>
    let tagPart : Option (Nat × Src) :=
      match r1 with
      | '/' :: r2 =>
        let tn := r2.takeWhile isTagC
        if (BLOCK_TAGS ++ PRE_TAGS).contains (String.mk tn) then
          some (1 + tn.length, r2.drop tn.length)
        else none
      | _ =>
        let tn := r1.takeWhile isTagC
        if (BLOCK_TAGS ++ PRE_TAGS).contains (String.mk tn) then
          some (tn.length, r1.drop tn.length)
        else none
    match tagPart with
    | some (n, rest) =>
      match rest with
      | [] => some (k + 1 + n, [])
      | c :: _ =>
        if c == '\n' then some (k + 1 + n + 1, [])
        else
          let ws := (rest.takeWhile isSpTab).length
          if 1 ≤ ws then some (k + 1 + n + ws, [])
          else none
    | none =>
      if (s2l "!--").isPrefixOf r1 then some (k + 4, [])
      else if (s2l "?").isPrefixOf r1 then some (k + 2, [])
      else
        match r1 with
        | '!' :: c :: _ =>
          if 'A' ≤ c && c ≤ 'Z' then some (k + 3, [])
          else if (s2l "![CDATA[").isPrefixOf r1 then some (k + 9, [])
          else none
        | _ => none
  | _ => none

/-- The indentation alternative `(?: {4}| *\t)` of `indent_code`:
characters consumed (four spaces preferred, else spaces then a tab). -/
def indentInd (l : Src) : Option Nat :=
  if l.take 4 == s2l "    " then some 4
  else
    let sp := countPre ' ' l
    match l.drop sp with
    | '\t' :: _ => some (sp + 1)
    | _ => none

/-- One line of `indent_code`: `(?: {4}| *\t)[^\n]+(?:\n+|$)`. -/
def indentLineLen (l : Src) : Option Nat :=
  match indentInd l with
  | none => none
  | some i =>
    let body := (l.drop i).takeWhile (fun c => !(c == '\n'))
    if body.isEmpty then none
    else
      let j := i + body.length
      let nl := countPre '\n' (l.drop j)
      if nl == 0 then
        if (l.drop j).isEmpty then some j else none
      else some (j + nl)

/-- Greedy trailing part of `indent_code`: `((?:indented line)|\s)*`,
preferring a full indented line over a single whitespace character, as the
regex alternation does. -/
def indentMore : Nat → Src → Nat
  | 0, _ => 0
  | fuel + 1, l =>
    match indentLineLen l with
    | some n => n + indentMore fuel (l.drop n)
    | none =>
      match l with
      | c :: _ => if isWsC c then 1 + indentMore fuel (l.drop 1) else 0
      | [] => 0

/-- `indent_code` matched at the head of a suffix. -/
def coreIndent (l : Src) : Option (Nat × List (String × Src)) :=
  match indentLineLen l with
  | none => none
  | some n => some (n + indentMore (l.length + 1) (l.drop n), [])

/-- One line of `STRICT_BLOCK_QUOTE = ( {0,3}>[^\n]*(?:\n|$))+`:
characters consumed (the line including its newline). -/
def strictQuoteLine (l : Src) : Option Nat :=
  if countPre ' ' l ≤ 3 then
    match l.drop (countPre ' ' l) with
    | c :: _ =>
      if c == '>' then some (min ((takeLine l).length + 1) l.length)
      else none
    | [] => none
  else none

/-- Greedy run of strict quote lines. -/
def strictQuoteRun : Nat → Src → Option Nat
  | 0, _ => none
  | fuel + 1, l =>
    match strictQuoteLine l with
    | none => none
    | some n =>
      match strictQuoteRun fuel (l.drop n) with
      | some m => some (n + m)
      | none => some n

/-- `STRICT_BLOCK_QUOTE.match(src, p)`: end position of the matched run of
quote-marked lines anchored exactly at `p`. -/
def strictQuoteAt (src : Src) (p : Nat) : Option Nat :=
  (strictQuoteRun (src.length + 1) (src.drop p)).map (p + ·)

/-- Generic position scan used to model `re.search` from a position. -/
def searchGo (matchAt : Nat → Option α) : Nat → Nat → Option (Nat × α)
  | 0, _ => none
  | fuel + 1, p =>
    match matchAt p with
    | some a => some (p, a)
    | none => searchGo matchAt fuel (p + 1)

/-- `BLANK_LINE.search(src, p)`: start and end of the first blank-line run
at a line start at or after `p`. -/
def blankSearch (src : Src) (p : Nat) : Option (Nat × Nat) :=
  (searchGo
    (fun q => if lineStart src q then blankRun (src.drop q) else none)
    (src.length + 1 - p) p).map (fun x => (x.1, x.1 + x.2))

/-- Close-fence pattern `^ {0,3}C{n,}[ \t]*(?:\n|$)` (re.M) matched at one
position; the end includes the newline when present. -/
def fenceCloseAt (c : Char) (n : Nat) (src : Src) (p : Nat) : Option Nat :=
  if lineStart src p then
    let l := src.drop p
    let line := takeLine l
    let k := min (countPre ' ' line) 3
    let rest := line.drop k
    let run := countPre c rest
    if n ≤ run then
      if allSpTab (rest.drop run) then some (min (p + line.length + 1) src.length)
      else none
    else none
  else none

/-- `_end.search(src, p)` of parse_fenced_code: start and end of the first
close-fence line at or after `p`. -/
def fenceCloseSearch (c : Char) (n : Nat) (src : Src) (p : Nat) : Option (Nat × Nat) :=
  searchGo (fun q => fenceCloseAt c n src q) (src.length + 1 - p) p

/-- `src.find(pat, p)`: first occurrence of a substring at or after `p`. -/
def strFindGo (pat : Src) (src : Src) : Nat → Nat → Option Nat
  | 0, _ => none
  | fuel + 1, p =>
    if pat.isPrefixOf (src.drop p) then some p
    else strFindGo pat src fuel (p + 1)

/-- `src.find(pat, p)` as an option (Python returns -1 on failure). -/
def strFind (pat : Src) (src : Src) (p : Nat) : Option Nat :=
  strFindGo pat src (src.length + 1 - p) p

/-- Dispatch from rule name to its pattern scanner (the SPECIFICATION table). -/
def tryRuleCore (rule : String) (l : Src) : Option (Nat × List (String × Src)) :=
  if rule == "blank_line" then (blankRun l).map (fun n => (n, []))
  else if rule == "axt_heading" then coreAxt l
  else if rule == "setex_heading" then coreSetex l
  else if rule == "fenced_code" then coreFenced l
  else if rule == "indent_code" then coreIndent l
  else if rule == "thematic_break" then coreThematic l
  else if rule == "ref_link" then coreRefLink l
  else if rule == "block_quote" then coreQuote l
  else if rule == "list" then coreList l
  else if rule == "block_html" then coreBlockHtml l
  else if rule == "raw_html" then coreRawHtml l
  else none

/-- A single rule matched at a position (its `^` requires a line start). -/
def tryRuleAt (rule : String) (src : Src) (p : Nat) : Option RMatch :=
  if lineStart src p then
    (tryRuleCore rule (src.drop p)).map (fun x => ⟨rule, p, p + x.1, x.2⟩)
  else none

/-- The combined pattern of a rule list anchored at one position: the
first rule (in list order) that matches there, as in the alternation
built by compile_sc. -/
def scMatchAt : List String → Src → Nat → Option RMatch
  | [], _, _ => none
  | r :: rs, src, p =>
    match tryRuleAt r src p with
    | some m => some m
    | none => scMatchAt rs src p

/-- Position scan of the combined pattern (`sc.search(src, p)`). -/
def searchSCGo (rules : List String) (src : Src) : Nat → Nat → Option RMatch
  | 0, _ => none
  | fuel + 1, p =>
    match scMatchAt rules src p with
    | some m => some m
    | none => searchSCGo rules src fuel (p + 1)

/-- `sc.search(src, p)`: the leftmost match of any rule at or after `p`. -/
def searchSC (rules : List String) (src : Src) (p : Nat) : Option RMatch :=
  searchSCGo rules src (src.length + 1 - p) p

/-- The DEFAULT_RULES list of the source. -/
def DEFAULT_RULES : List String :=
  ["fenced_code", "indent_code", "axt_heading", "setex_heading",
   "thematic_break", "block_quote", "list", "ref_link", "raw_html",
   "blank_line"]

/-- Attribute value of a token attribute mapping. -/
inductive AttrV where
  | nat : Nat → AttrV
  | bool : Bool → AttrV
  | str : Src → AttrV
deriving DecidableEq, Repr

/-- Block token (§3 of the spec): type tag, optional text pending inline
expansion, optional raw text, attribute mapping, optional children.  The
source's `fenced` flag of code tokens is stored in the attribute mapping. -/
inductive Token : Type where
  | mk (ttype : String) (text : Option Src) (raw : Option Src)
       (attrs : List (String × AttrV)) (children : Option (List Token))

/-- Token type tag. -/
def Token.ttype : Token → String
  | .mk t _ _ _ _ => t

/-- Token text pending inline expansion. -/
def Token.text : Token → Option Src
  | .mk _ x _ _ _ => x

/-- Token raw text. -/
def Token.raw : Token → Option Src
  | .mk _ _ r _ _ => r

/-- Token attribute mapping. -/
def Token.attrs : Token → List (String × AttrV)
  | .mk _ _ _ a _ => a

/-- Token children. -/
def Token.children : Token → Option (List Token)
  | .mk _ _ _ _ c => c

/-- Modelled from the spec: the parser state of core.py (absent from
src/): immutable source buffer, mutable cursor, cursor_max, output token
sequence, the shared environment's ref_links mapping, and the nesting
depth counter (§3 of the spec). -/
structure State where
  src : Src
  cursor : Nat
  cursorMax : Nat
  tokens : List Token
  refLinks : List (Src × List (String × AttrV))
  depth : Nat

/-- A fresh root state over a source buffer. -/
def mkState (src : Src) : State :=
  { src := src, cursor := 0, cursorMax := src.length, tokens := [],
    refLinks := [], depth := 0 }

/-- Modelled from the spec: find_line_end of core.py — the position just
past the current line's newline, or cursor_max when none remains. -/
def State.find_line_end (s : State) : Nat :=
  match (s.src.drop s.cursor).findIdx? (fun c => c == '\n') with
  | some i => s.cursor + i + 1
  | none => s.cursorMax

/-- Modelled from the spec: get_text of core.py — the buffer slice from
the cursor to a position. -/
def State.get_text (s : State) (endPos : Nat) : Src :=
  (s.src.take endPos).drop s.cursor

/-- Modelled from the spec: last_token of core.py. -/
def State.last_token (s : State) : Option Token := s.tokens.getLast?

/-- Modelled from the spec: append_token of core.py. -/
def State.append_token (s : State) (t : Token) : State :=
  { s with tokens := s.tokens ++ [t] }

/-- Modelled from the spec: prepend_token of core.py — insert before the
last token (the sibling a nested dispatch just appended), per the
prepend-ordered token sequence of §3/§4.3 of the spec. -/
def State.prepend_token (s : State) (t : Token) : State :=
  match s.tokens.getLast? with
  | some last => { s with tokens := s.tokens.dropLast ++ [t, last] }
  | none => { s with tokens := [t] }

/-- Modelled from the spec: add_paragraph of core.py — merge text into an
open trailing paragraph, or open a new one (§4.2 of the spec). -/
def State.add_paragraph (s : State) (text : Src) : State :=
  match s.tokens.getLast? with
  | some last =>
    if last.ttype == "paragraph" then
      { s with tokens := s.tokens.dropLast ++
          [Token.mk "paragraph" (some (last.text.getD [] ++ text)) last.raw
            last.attrs last.children] }
    else s.append_token (Token.mk "paragraph" (some text) none [] none)
  | none => s.append_token (Token.mk "paragraph" (some text) none [] none)

/-- Modelled from the spec: append_paragraph of core.py — when the last
token is an open paragraph, append the rest of the current line to it and
return the line-end position; otherwise change nothing (§4.2 of the
spec: the merge rule-types use to avoid interrupting a paragraph). -/
def State.append_paragraph (s : State) : Option Nat × State :=
  match s.tokens.getLast? with
  | some last =>
    if last.ttype == "paragraph" then
      let pos := s.find_line_end
      (some pos,
       { s with tokens := s.tokens.dropLast ++
           [Token.mk "paragraph" (some (last.text.getD [] ++ s.get_text pos))
             last.raw last.attrs last.children] })
    else (none, s)
  | none => (none, s)

/-- Modelled from the spec: child_state of core.py — a fresh state over a
substring, sharing the environment, with an incremented depth counter. -/
def State.child_state (s : State) (text : Src) : State :=
  { src := text, cursor := 0, cursorMax := text.length, tokens := [],
    refLinks := s.refLinks, depth := s.depth + 1 }

/-- Expand tabs in the leading whitespace of one line to column stops of
the given width; stops at the first non-whitespace character. -/
def expandLeadGo (width : Nat) : Nat → Src → Src
  | _, [] => []
  | col, c :: r =>
    if c == ' ' then ' ' :: expandLeadGo width (col + 1) r
    else if c == '\t' then
      let n := width - col % width
      List.replicate n ' ' ++ expandLeadGo width (col + n) r
    else c :: r

/-- Modelled from the spec: expand_leading_tab of util.py (absent from
src/) — expand tabs in each line's leading whitespace to spaces at the
given column width. -/
def expand_leading_tab (text : Src) (width : Nat) : Src :=
  mapLines (expandLeadGo width 0) text

/-- Modelled from the spec: expand_tab of util.py — leading-tab expansion
at width 4 (a tab inside the quote marker indentation counts as 4
spaces). -/
def expand_tab (text : Src) : Src := mapLines (expandLeadGo 4 0) text

/-- Words of a string, splitting on Python whitespace. -/
def wordsGo : Src → Src → List Src
  | [], acc => if acc.isEmpty then [] else [acc.reverse]
  | c :: l, acc =>
    if isWsC c then
      if acc.isEmpty then wordsGo l [] else acc.reverse :: wordsGo l []
    else wordsGo l (c :: acc)

/-- Modelled from the spec: unikey of util.py — case/whitespace
normalization of a reference-link label (§4.8 of the spec): whitespace
runs fold to single spaces, ends stripped, the result lowercased. -/
def unikey (l : Src) : Src :=
  (joinL (List.intersperse [' '] (wordsGo l []))).map Char.toLower

/-- Modelled from the spec: escape_url of util.py — URL escaping helper,
treated as the identity text transform (no claim depends on its output
shape, only on which entry is stored). -/
def escape_url (l : Src) : Src := l

/-- Modelled from the spec: safe_entity of util.py — HTML entity escaping
helper, treated as the identity text transform. -/
def safe_entity (l : Src) : Src := l

/-- Modelled from the spec: unescape_char of helpers.py — drop a
backslash before an escaped character. -/
def unescape_char : Src → Src
  | [] => []
  | '\\' :: c :: r => c :: unescape_char r
  | c :: r => c :: unescape_char r

/-- Skip spaces/tabs and at most one newline (a link destination or title
may spill onto the next line, but a blank line ends the definition). -/
def skipWs1Nl (src : Src) (p : Nat) : Nat :=
  let a := ((src.drop p).takeWhile isSpTab).length
  let p1 := p + a
  if src.getD p1 'x' == '\n' && decide (p1 < src.length) then
    p1 + 1 + ((src.drop (p1 + 1)).takeWhile isSpTab).length
  else p1

/-- Modelled from the spec: parse_link_href of helpers.py (absent from
src/) — after the label colon, skip whitespace (spilling onto at most one
following line), then read an angle-bracketed or bare destination.
Returns the destination and the position after it, or none. -/
def parse_link_href (src : Src) (pos : Nat) : Option Src × Nat :=
  let p := skipWs1Nl src pos
  if src.getD p 'x' == '<' && decide (p < src.length) then
    let inner := (src.drop (p + 1)).takeWhile (fun c => !(c == '>') && !(c == '\n'))
    let q := p + 1 + inner.length
    if src.getD q 'x' == '>' && decide (q < src.length) then (some inner, q + 1)
    else (none, pos)
  else
    let href := (src.drop p).takeWhile (fun c => !(isWsC c))
    if href.isEmpty then (none, pos) else (some href, p + href.length)

/-- Modelled from the spec: parse_link_title of helpers.py — skip
whitespace (at most one newline), then a quoted title whose closing quote
must come before `maxPos`.  Returns the title and the position after the
closing quote, or none. -/
def parse_link_title (src : Src) (startPos maxPos : Nat) : Option Src × Option Nat :=
  let p := skipWs1Nl src startPos
  let q := src.getD p 'x'
  if decide (p < maxPos) && (q == '"' || q == Char.ofNat 39) then
    let inner := (src.drop (p + 1)).takeWhile (fun c => !(c == q))
    let e := p + 1 + inner.length
    if decide (e < maxPos) && src.getD e 'x' == q then (some inner, some (e + 1))
    else (none, none)
  else (none, none)

/-- Parser configuration: the constructor arguments of BlockParser. -/
structure Conf where
  block_quote_rules : List String
  list_rules : List String
  max_nested_level : Nat

/-- The default configuration (max_nested_level 6, full rule lists). -/
def defaultConf : Conf :=
  { block_quote_rules := DEFAULT_RULES, list_rules := DEFAULT_RULES,
    max_nested_level := 6 }

/-- `m.group(0)`: the matched span of the source. -/
def RMatch.g0 (m : RMatch) (src : Src) : Src := (src.take m.mend).drop m.mstart

/-- parse_blank_line (src lines 111-113): append one blank_line token and
return the end of the matched run. -/
def parse_blank_line (m : RMatch) (s : State) : Option Nat × State :=
  (some m.mend, s.append_token (Token.mk "blank_line" none none [] none))

/-- parse_thematic_break (src lines 115-118). -/
def parse_thematic_break (m : RMatch) (s : State) : Option Nat × State :=
  (some (m.mend + 1), s.append_token (Token.mk "thematic_break" none none [] none))

/-- parse_indent_code (src lines 120-131). -/
def parse_indent_code (m : RMatch) (s : State) : Option Nat × State :=
  match s.append_paragraph with
  | (some e, s1) => (some e, s1)
  | (none, _) =>
    let code := m.g0 s.src
    let code := expand_leading_tab code 4
    let code := mapLines stripIndent code
    let code := stripNl code
    (some m.mend, s.append_token (Token.mk "block_code" none (some code) [] none))

/-- parse_fenced_code (src lines 133-167). -/
def parse_fenced_code (m : RMatch) (s : State) : Option Nat × State :=
  let spaces := m.grp "fenced_1"
  let marker := m.grp "fenced_2"
  let info := m.grp "fenced_3"
  let c := marker.headD 'x'
  if !info.isEmpty && c == tick && info.contains tick then (none, s)
  else
    let cursorStart := m.mend + 1
    let fc := fenceCloseSearch c marker.length s.src cursorStart
    let code :=
      match fc with
      | some (st, _) => (s.src.take st).drop cursorStart
      | none => s.src.drop cursorStart
    let endPos :=
      match fc with
      | some (_, en) => en
      | none => s.cursorMax
    let code :=
      if !spaces.isEmpty && !code.isEmpty then
        mapLines (fun line => line.drop (min (countPre ' ' line) spaces.length)) code
      else code
    let attrs :=
      if !info.isEmpty then
        [("fenced", AttrV.bool true),
         ("info", AttrV.str (safe_entity (pyStrip (unescape_char info))))]
      else [("fenced", AttrV.bool true)]
    (some endPos, s.append_token (Token.mk "block_code" none (some code) attrs none))

/-- parse_axt_heading (src lines 169-178). -/
def parse_axt_heading (m : RMatch) (s : State) : Option Nat × State :=
  let level := (m.grp "axt_1").length
  let text := pyStrip (m.grp "axt_2")
  let text := if text.isEmpty then text else axtTrim text
  (some (m.mend + 1),
   s.append_token (Token.mk "heading" (some text) none [("level", AttrV.nat level)] none))

/-- Destination and title scanning of parse_ref_link (src lines 202-231):
from the position after the label colon, parse the destination, find the
blank-line bound, parse an optional title, and validate the line ends.
Returns the end position past the definition together with the attrs
that would be stored, or none when malformed.  This computation never
reads the environment. -/
def refLinkScan (src : Src) (cursorMax pos : Nat) :
    Option (Nat × List (String × AttrV)) :=
  match parse_link_href src pos with
  | (none, _) => none
  | (some href0, hrefPos0) =>
    match parse_link_title src hrefPos0
        (match blankSearch src hrefPos0 with
         | some (st, _) => st
         | none => cursorMax) with
    | (title0, titlePos0) =>
      match (match titlePos0 with
             | some tp =>
               match blankToLine (src.drop tp) with
               | some n => some (tp + n)
               | none => none
             | none => none : Option Nat) with
      | some tpF =>
        some (tpF,
          match title0 with
          | some t =>
            [("url", AttrV.str (escape_url (unescape_char href0))),
             ("title", AttrV.str (safe_entity t))]
          | none => [("url", AttrV.str (escape_url (unescape_char href0)))])
      | none =>
        match blankToLine (src.drop hrefPos0) with
        | some n =>
          some (hrefPos0 + n, [("url", AttrV.str (escape_url (unescape_char href0)))])
        | none => none

/-- parse_ref_link (src lines 193-239); the href/title parsers and unikey
are modelled from the spec (helpers.py and util.py are absent from src/). -/
def parse_ref_link (m : RMatch) (s : State) : Option Nat × State :=
  match s.append_paragraph with
  | (some e, s1) => (some e, s1)
  | (none, _) =>
    if (unikey (m.grp "link_1")).isEmpty then (none, s)
    else
      match refLinkScan s.src s.cursorMax m.mend with
      | none => (none, s)
      | some (e, attrs) =>
        if s.refLinks.any (fun kv => kv.fst == unikey (m.grp "link_1")) then
          (some e, s)
        else
          (some e,
           { s with refLinks := s.refLinks ++ [(unikey (m.grp "link_1"), attrs)] })

/-- _parse_html_to_end (src lines 469-481). -/
def parseHtmlToEnd (s : State) (endMarker : Src) (startPos : Nat) : Option Nat × State :=
  match strFind endMarker s.src startPos with
  | none =>
    let text := s.src.drop s.cursor
    (some s.cursorMax, s.append_token (Token.mk "block_html" none (some text) [] none))
  | some markerPos =>
    let text := s.get_text markerPos
    let s1 := { s with cursor := markerPos }
    let endPos := s1.find_line_end
    let text := text ++ s1.get_text endPos
    (some endPos, s1.append_token (Token.mk "block_html" none (some text) [] none))

/-- _parse_html_to_newline (src lines 484-494). -/
def parseHtmlToNewline (s : State) : Option Nat × State :=
  match blankSearch s.src s.cursor with
  | some (st, _) =>
    let text := s.get_text st
    (some st, s.append_token (Token.mk "block_html" none (some text) [] none))
  | none =>
    let text := s.src.drop s.cursor
    (some s.cursorMax, s.append_token (Token.mk "block_html" none (some text) [] none))

/-- Attribute-name character (modelled HTML attribute syntax). -/
def isAttrNameC (c : Char) : Bool :=
  isAlphaC c || isDigitC c || c == '_' || c == ':' || c == '.' || c == '-'

/-- `[ \t]*(?:\n|$)` on the remainder of a bounded region. -/
def tagEndOk (r : Src) : Bool :=
  match r.dropWhile isSpTab with
  | [] => true
  | c :: rest => c == '\n' && rest.isEmpty

/-- Modelled from the spec: HTML_ATTRIBUTES of helpers.py followed by
`[ \t]*>[ \t]*(?:\n|$)` (_OPEN_TAG_END): zero or more
whitespace-separated attributes, each optionally with a quoted or bare
value, then the closing angle bracket and only whitespace to the end of
the region. -/
def openTagEndScan : Nat → Src → Bool
  | 0, _ => false
  | fuel + 1, l =>
    let l1 := l.dropWhile isSpTab
    match l1 with
    | '>' :: r => tagEndOk r
    | _ =>
      if isSpTab (l.headD 'x') then
        let name := l1.takeWhile isAttrNameC
        if name.isEmpty then false
        else
          let l2 := (l1.drop name.length).dropWhile isSpTab
          match l2 with
          | '=' :: v =>
            let v1 := v.dropWhile isSpTab
            match v1 with
            | q :: vr =>
              if q == '"' || q == Char.ofNat 39 then
                let inner := vr.takeWhile (fun c => !(c == q))
                if vr.getD inner.length 'x' == q then
                  openTagEndScan fuel (vr.drop (inner.length + 1))
                else false
              else
                let bare := v1.takeWhile (fun c => !(isWsC c) && !(c == '>'))
                if bare.isEmpty then false else openTagEndScan fuel (v1.drop bare.length)
            | [] => false
          | _ => openTagEndScan fuel (l1.drop name.length)
      else false

/-- `_OPEN_TAG_END.match(src, startPos, endPos)`. -/
def openTagEnd (src : Src) (startPos endPos : Nat) : Bool :=
  let region := (src.take endPos).drop startPos
  openTagEndScan (region.length + 1) region

/-- `_CLOSE_TAG_END.match(src, startPos, endPos)`:
`[ \t]*>[ \t]*(?:\n|$)` on the line remainder. -/
def closeTagEnd (src : Src) (startPos endPos : Nat) : Bool :=
  let region := (src.take endPos).drop startPos
  match region.dropWhile isSpTab with
  | '>' :: r => tagEndOk r
  | _ => false

/-- Body of parse_raw_html (src lines 362-408) over the stripped marker
text `marker = m.group(0).strip()`.  The source computes `close_tag` for
a `</` marker and `open_tag` otherwise and keys rules 1, 6 and 7 off
whichever is set; the two exclusive cases are written as explicit
branches. -/
def rawHtmlDispatch (marker : Src) (m : RMatch) (s : State) : Option Nat × State :=
  if marker == s2l "<!--" then parseHtmlToEnd s (s2l "-->") m.mend
  else if marker == s2l "<?" then parseHtmlToEnd s (s2l "?>") m.mend
  else if marker == s2l "<![CDATA[" then parseHtmlToEnd s (s2l "]]>") m.mend
  else if (s2l "<!").isPrefixOf marker then parseHtmlToEnd s (s2l ">") m.mend
  else if (s2l "</").isPrefixOf marker then
    -- close tag: rule 6, else rule 7 with _CLOSE_TAG_END
    if BLOCK_TAGS.contains (String.mk ((marker.drop 2).map Char.toLower)) then
      parseHtmlToNewline s
    else
      match s.append_paragraph with
      | (some e, s1) => (some e, s1)
      | (none, _) =>
        if closeTagEnd s.src m.mend s.find_line_end then parseHtmlToNewline s
        else (none, s)
  else
    -- open tag: rule 1, rule 6, else rule 7 with _OPEN_TAG_END
    if PRE_TAGS.contains (String.mk ((marker.drop 1).map Char.toLower)) then
      parseHtmlToEnd s (s2l "</" ++ (marker.drop 1).map Char.toLower ++ s2l ">") m.mend
    else if BLOCK_TAGS.contains (String.mk ((marker.drop 1).map Char.toLower)) then
      parseHtmlToNewline s
    else
      match s.append_paragraph with
      | (some e, s1) => (some e, s1)
      | (none, _) =>
        if openTagEnd s.src m.mend s.find_line_end then parseHtmlToNewline s
        else (none, s)

/-- parse_raw_html (src lines 362-408): dispatch on the stripped matched
marker. -/
def parse_raw_html (m : RMatch) (s : State) : Option Nat × State :=
  rawHtmlDispatch (pyStrip (m.g0 s.src)) m s

/-- parse_block_html (src lines 359-360): delegates to parse_raw_html. -/
def parse_block_html (m : RMatch) (s : State) : Option Nat × State :=
  parse_raw_html m s

/-- Digits of an ordered-list marker to a number (`int(marker[:-1])`). -/
def digitsToNat (l : Src) : Nat := l.foldl (fun a c => a * 10 + (c.toNat - 48)) 0

/-- The sibling-block dispatch of the list-item scan: the handlers of
the rules that can end a list from an unindented line, mirroring the
break dispatch of the non-strict block-quote scan (blank lines and new
list markers are handled structurally by the scan itself). -/
def listBreakDispatch (m : RMatch) (s : State) : Option Nat × State :=
  if m.rule == "thematic_break" then parse_thematic_break m s
  else if m.rule == "fenced_code" then parse_fenced_code m s
  else if m.rule == "block_html" then parse_block_html m s
  else (none, s)

/-- Modelled from the spec: the sibling-block rules consulted while
scanning list-item boundaries (§4.4: "a trailing sibling block was
detected while scanning list-item boundaries", mirroring the block-quote
break rules). -/
def listBreakRules : List String :=
  ["thematic_break", "fenced_code", "block_html"]

/-- Modelled from the spec: the item-boundary scan of the List Assembler
(§4.4 of the spec; list_parser.py is absent from src/), fuel-indexed and
mirroring the non-strict block-quote scan.  A line matching the list
rule starts a new item — a pending blank line before it separates two
items, making the list loose; a blank line is remembered and kept with
the current item; an indented line continues the current item with up to
the marker width of leading spaces stripped — a pending blank line
before it is a blank inside the item's content between non-final blocks,
making the list loose; any other line is checked against the
sibling-block rules: an accepting handler ends the scan with the early
end position past the dispatched sibling token, while a declining
handler and a plain paragraph-like line are absorbed as lazy item
continuation.  Returns the item texts, the early end position, the
looseness flag and the state. -/
def listScan (contIndent : Nat) :
    Nat → State → Src → List Src → Bool → Bool →
    List Src × Option Nat × Bool × State
  | 0, s, cur, items, _, loose => (items ++ [cur], none, loose, s)
  | fuel + 1, s, cur, items, pendingBlank, loose =>
    if s.cursor < s.cursorMax then
      match tryRuleAt "list" s.src s.cursor with
      | some m2 =>
        listScan contIndent fuel { s with cursor := m2.mend + 1 }
          (m2.grp "list_3" ++ ['\n']) (items ++ [cur]) false
          (loose || pendingBlank)
      | none =>
        if allWs (s.get_text s.find_line_end) then
          listScan contIndent fuel { s with cursor := s.find_line_end }
            (cur ++ s.get_text s.find_line_end) items true loose
        else if isSpTab ((s.get_text s.find_line_end).headD 'x') then
          listScan contIndent fuel { s with cursor := s.find_line_end }
            (cur ++ (s.get_text s.find_line_end).drop
              (min (countPre ' ' (s.get_text s.find_line_end)) contIndent))
            items false (loose || pendingBlank)
        else
          match (scMatchAt listBreakRules s.src s.cursor).map
              (fun m2 => listBreakDispatch m2 s) with
          | some (some e, s2) => (items ++ [cur], some e, loose, s2)
          | some (none, s2) =>
            listScan contIndent fuel { s2 with cursor := s2.find_line_end }
              (cur ++ s2.get_text s2.find_line_end) items false
              (loose || pendingBlank)
          | none =>
            listScan contIndent fuel { s with cursor := s.find_line_end }
              (cur ++ s.get_text s.find_line_end) items false
              (loose || pendingBlank)
    else (items ++ [cur], none, loose, s)

/-- Modelled from the spec: recursive parsing of each item's content
(§4.4: children are list-item tokens, each recursively parsed): one
child state per item text with the list rule set, the environment
threaded through the items in order. -/
def listItemsGo (conf : Conf) (parseFn : List String → State → State) :
    List Src → State → List Token × State
  | [], s => ([], s)
  | text :: rest, s =>
    let child2 := parseFn conf.list_rules (s.child_state (expand_tab text))
    let (toks, s2) := listItemsGo conf parseFn rest
      { s with refLinks := child2.refLinks }
    (Token.mk "list_item" none none [] (some child2.tokens) :: toks, s2)

/-- Modelled from the spec: the List Assembler (parse_list of
list_parser.py, absent from src/), §4.4 of the spec.  From the position
after the first marker line, whose content is the initial item text, it
scans the item boundaries, recursively parses each item's content into a
list_item token, recomputes the tight attribute across the items (the
list is tight unless a blank line separates two items or sits inside an
item's content between non-final blocks) and attaches the list's nesting
depth; an end position earlier than the full consumed span is reported
when a trailing sibling block was detected and dispatched during the
scan. -/
def assembleList (conf : Conf) (parseFn : List String → State → State)
    (attrs : List (String × AttrV)) (groups : Src × Src × Src) (s : State) :
    Token × Option Nat × State :=
  match listScan (groups.1.length + groups.2.1.length + 1)
      (s.cursorMax + 1 - s.cursor) s (groups.2.2 ++ ['\n']) [] false false with
  | (items, endPos, loose, s1) =>
    match listItemsGo conf parseFn items s1 with
    | (children, s2) =>
      (Token.mk "list" none none
        ((attrs.filter (fun a => a.fst != "tight"))
          ++ [("tight", AttrV.bool (!loose)), ("depth", AttrV.nat s.depth)])
        (some children),
       endPos, s2)

/-- A cannot-interrupt-paragraph early return of parse_list (src lines
324-329 and 336-341): when the guard condition holds, try merging into an
open trailing paragraph. -/
def listEarly (cond : Bool) (s : State) : Option (Nat × State) :=
  if cond then
    match s.append_paragraph with
    | (some e, s1) => some (e, s1)
    | (none, _) => none
  else none

/-- Whether the list marker is ordered (`len(marker) > 1`). -/
def listOrdered (m : RMatch) : Bool := decide (1 < (m.grp "list_2").length)

/-- The ordered start value (`int(marker[:-1])`). -/
def listStart (m : RMatch) : Nat := digitsToNat (m.grp "list_2").dropLast

/-- Attribute push-down of parse_list (src lines 347-349): every item
child receives the list's depth and tight attributes. -/
def listChildAttrs (token : Token) : Token :=
  Token.mk token.ttype token.text token.raw token.attrs
    (some ((token.children.getD []).map (fun t =>
      Token.mk t.ttype t.text t.raw
        [("depth",
          match token.attrs.find? (fun a => a.fst == "depth") with
          | some a => a.snd
          | none => AttrV.nat 0),
         ("tight",
          match token.attrs.find? (fun a => a.fst == "tight") with
          | some a => a.snd
          | none => AttrV.bool true)] t.children)))

/-- parse_list (src lines 322-357); the assembler it calls is modelled
from the spec (list_parser.py is absent from src/).  When the assembler
reported an early end position, the list token is prepended before the
dispatched sibling token and that position is returned (src lines
351-354); otherwise it is appended and the cursor after the consumed
span is returned (src lines 356-357). -/
def parse_list (conf : Conf) (parseFn : List String → State → State)
    (m : RMatch) (s : State) : Option Nat × State :=
  match listEarly (allWs (m.grp "list_3")) s with
  | some (e, s1) => (some e, s1)
  | none =>
    match listEarly (listOrdered m && listStart m != 1) s with
    | some (e, s1) => (some e, s1)
    | none =>
      match assembleList conf parseFn
          (if listOrdered m && listStart m != 1 then
            [("ordered", AttrV.bool (listOrdered m)),
             ("tight", AttrV.bool true), ("start", AttrV.nat (listStart m))]
           else
            [("ordered", AttrV.bool (listOrdered m)),
             ("tight", AttrV.bool true)])
          (m.grp "list_1", m.grp "list_2", m.grp "list_3")
          { s with cursor := m.mend + 1 } with
      | (token, endPos0, s3) =>
        match endPos0 with
        | some e => (some e, s3.prepend_token (listChildAttrs token))
        | none => (some s3.cursor, s3.append_token (listChildAttrs token))

/-- The non-paragraph fallback of parse_setex_heading (src lines
188-191): re-match the position against thematic_break and list only and
dispatch the handler of the rule that matched. -/
def setexRematch (conf : Conf) (parseFn : List String → State → State)
    (s : State) : Option Nat × State :=
  match scMatchAt ["thematic_break", "list"] s.src s.cursor with
  | some m2 =>
    if m2.rule == "thematic_break" then parse_thematic_break m2 s
    else parse_list conf parseFn m2 s
  | none => (none, s)

/-- parse_setex_heading (src lines 180-191): convert a preceding open
paragraph in place into a heading, else re-match the position against
thematic_break and list. -/
def parse_setex_heading (conf : Conf) (parseFn : List String → State → State)
    (m : RMatch) (s : State) : Option Nat × State :=
  match s.tokens.getLast? with
  | some last =>
    if last.ttype == "paragraph" then
      (some (m.mend + 1),
       { s with tokens := s.tokens.dropLast ++
           [Token.mk "heading" last.text last.raw
             [("level", AttrV.nat (if m.grp "setext_1" == ['='] then 1 else 2))]
             last.children] })
    else setexRematch conf parseFn s
  | none => setexRematch conf parseFn s

/-- parse_method restricted to the five rules of the non-strict break
scanner of parse_block_quote; a match handed to it always carries one of
these five rule names. -/
def breakDispatch (conf : Conf) (parseFn : List String → State → State)
    (m : RMatch) (s : State) : Option Nat × State :=
  if m.rule == "blank_line" then parse_blank_line m s
  else if m.rule == "thematic_break" then parse_thematic_break m s
  else if m.rule == "fenced_code" then parse_fenced_code m s
  else if m.rule == "list" then parse_list conf parseFn m s
  else if m.rule == "block_html" then parse_block_html m s
  else (none, s)

/-- Strip a strict-quote run the way the source does (src lines 256-259
and 271-274): remove the quote markers, expand leading tabs at width 3,
trim one leading space per line. -/
def cleanQuote (quote : Src) : Src :=
  mapLines stripOneSpace (expand_leading_tab (mapLines stripQuoteMark quote) 3)

/-- The rule list of the break scanner in the non-strict phase (src lines
264-267). -/
def bqBreakRules : List String :=
  ["blank_line", "thematic_break", "fenced_code", "list", "block_html"]

/-- The non-strict scan loop of parse_block_quote (src lines 262-300),
fuel-indexed.  Arguments: state, accumulated quote text, prev_blank_line
flag.  Returns the accumulated text, the sibling end position when a
break rule's handler accepted, and the state. -/
def bqScan (conf : Conf) (parseFn : List String → State → State) :
    Nat → State → Src → Bool → Src × Option Nat × State
  | 0, s, text, _ => (text, none, s)
  | fuel + 1, s, text, prevBlank =>
    if s.cursor < s.cursorMax then
      match strictQuoteAt s.src s.cursor with
      | some e =>
        let quote := cleanQuote ((s.src.take e).drop s.cursor)
        let pb := if allWs quote then true else lineBlankEnd quote
        bqScan conf parseFn fuel { s with cursor := e } (text ++ quote) pb
      | none =>
        if prevBlank then (text, none, s)
        else
          match (scMatchAt bqBreakRules s.src s.cursor).map
              (fun m2 => breakDispatch conf parseFn m2 s) with
          | some (some e, s2) => (text, some e, s2)
          | some (none, s2) =>
            let pos := s2.find_line_end
            let line := expand_leading_tab (s2.get_text pos) 3
            bqScan conf parseFn fuel { s2 with cursor := pos } (text ++ line) prevBlank
          | none =>
            let pos := s.find_line_end
            let line := expand_leading_tab (s.get_text pos) 3
            bqScan conf parseFn fuel { s with cursor := pos } (text ++ line) prevBlank
    else (text, none, s)

/-- Child rule computation of parse_block_quote (src lines 307-312): at
depth max_nested_level - 1 or deeper, the block_quote rule is removed
from the rule list handed to the child state; otherwise the full
block_quote_rules list is used. -/
def blockQuoteChildRules (depth maxNested : Nat) (rules : List String) : List String :=
  if maxNested - 1 ≤ depth then rules.erase "block_quote" else rules

/-- Text accumulation of parse_block_quote (src lines 252-300): in strict
mode one strict quote run is consumed (src lines 253-261); otherwise the
non-strict scan loop runs (src lines 262-300).  Returns the accumulated
text, the sibling end position, and the state. -/
def bqCollect (conf : Conf) (parseFn : List String → State → State)
    (requireMarker : Bool) (s1 : State) (text : Src) :
    Src × Option Nat × State :=
  if requireMarker then
    match strictQuoteAt s1.src s1.cursor with
    | some e =>
      (text ++ cleanQuote ((s1.src.take e).drop s1.cursor), none,
       { s1 with cursor := e })
    | none => (text, none, s1)
  else bqScan conf parseFn (s1.cursorMax + 1) s1 text false

/-- The initial quote text of parse_block_quote (src lines 243-245):
first-line content, newline appended, leading tabs expanded at width 3,
one leading space trimmed. -/
def bqFirstText (m : RMatch) : Src :=
  mapLines stripOneSpace (expand_leading_tab (m.grp "quote_1" ++ ['\n']) 3)

/-- Final phase of parse_block_quote (src lines 302-320): the collected
text is tab-expanded and parsed in a child state with the (possibly
narrowed) block-quote rule list; the block_quote token is then prepended
before an already-dispatched sibling, or appended. -/
def bqFinish (conf : Conf) (parseFn : List String → State → State)
    (tr : Src × Option Nat × State) : Option Nat × State :=
  let s2 := tr.2.2
  let child2 := parseFn
    (blockQuoteChildRules s2.depth conf.max_nested_level conf.block_quote_rules)
    (s2.child_state (expand_tab tr.1))
  let token := Token.mk "block_quote" none none [] (some child2.tokens)
  match tr.2.1 with
  | some e => (some e, ({ s2 with refLinks := child2.refLinks }).prepend_token token)
  | none =>
    (some ({ s2 with refLinks := child2.refLinks }).cursor,
     ({ s2 with refLinks := child2.refLinks }).append_token token)

/-- parse_block_quote (src lines 241-320). -/
def parse_block_quote (conf : Conf) (parseFn : List String → State → State)
    (m : RMatch) (s : State) : Option Nat × State :=
  bqFinish conf parseFn
    (bqCollect conf parseFn
      (scMatchAt ["blank_line", "indent_code", "fenced_code"] (bqFirstText m) 0).isSome
      { s with cursor := m.mend + 1 } (bqFirstText m))

/-- parse_method of the core Parser (modelled from the spec; core.py is
absent from src/): dispatch a match to the parse_ handler registered for
its rule name in the _methods table. -/
def parseMethod (conf : Conf) (parseFn : List String → State → State)
    (m : RMatch) (s : State) : Option Nat × State :=
  if m.rule == "blank_line" then parse_blank_line m s
  else if m.rule == "axt_heading" then parse_axt_heading m s
  else if m.rule == "setex_heading" then parse_setex_heading conf parseFn m s
  else if m.rule == "fenced_code" then parse_fenced_code m s
  else if m.rule == "indent_code" then parse_indent_code m s
  else if m.rule == "thematic_break" then parse_thematic_break m s
  else if m.rule == "ref_link" then parse_ref_link m s
  else if m.rule == "block_quote" then parse_block_quote conf parseFn m s
  else if m.rule == "list" then parse_list conf parseFn m s
  else if m.rule == "block_html" then parse_block_html m s
  else if m.rule == "raw_html" then parse_raw_html m s
  else (none, s)

/-- Python truthiness of an optional position (None and 0 are falsy). -/
def truthyPos : Option Nat → Bool
  | some p => p != 0
  | none => false

/-- One handler invocation of the dispatch loop (src lines 432-439):
invoke the handler on the (pre-match-adjusted) state; on acceptance
continue from the returned position, on decline consume one line as
paragraph text; `next` is the rest of the loop. -/
def parseLoopStep (method : RMatch → State → Option Nat × State)
    (next : State → State) (m : RMatch) (s1 : State) : State :=
  match method m s1 with
  | (res, s2) =>
    if truthyPos res then next { s2 with cursor := res.getD 0 }
    else
      next { s2.add_paragraph (s2.get_text s2.find_line_end)
             with cursor := s2.find_line_end }

/-- The dispatch loop of BlockParser.parse (src lines 421-439),
fuel-indexed: search for the nearest rule match; emit skipped text as
paragraph; invoke the handler; on decline consume one line as paragraph
text. -/
def parseLoop (search : Src → Nat → Option RMatch)
    (method : RMatch → State → Option Nat × State) :
    Nat → State → State
  | 0, s => s
  | fuel + 1, s =>
    if s.cursor < s.cursorMax then
      match search s.src s.cursor with
      | none => s
      | some m =>
        parseLoopStep method (parseLoop search method fuel) m
          (if s.cursor < m.mstart then
            { s.add_paragraph (s.get_text m.mstart) with cursor := m.mstart }
           else s)
    else s

/-- The trailing-paragraph consumption after the loop (src lines 441-444). -/
def parseFinal (s : State) : State :=
  if s.cursor < s.cursorMax then
    { s.add_paragraph (s.src.drop s.cursor) with cursor := s.cursorMax }
  else s

/-- BlockParser.parse (src lines 418-444): the dispatch loop followed by
trailing-paragraph consumption.  The loop fuel is one more than
cursor_max, which the progress theorems show is sufficient for the loop
to reach its exit condition. -/
def parse (conf : Conf) (parseFn : List String → State → State)
    (rules : List String) (s : State) : State :=
  parseFinal (parseLoop (searchSC rules) (parseMethod conf parseFn) (s.cursorMax + 1) s)

/-- Depth-indexed recursion knot: block quotes and list items spawn child
states parsed by a recursive call of parse; the index stands in for
Python's call stack depth. -/
def parseK (conf : Conf) : Nat → List String → State → State
  | 0, _, s => s
  | d + 1, rules, s => parse conf (parseK conf d) rules s

lemma blankLine1_pos : ∀ l n, blankLine1 l = some n → 1 ≤ n := by
  intro l
  induction l with
  | nil => intro n h; simp [blankLine1] at h
  | cons c r ih =>
    intro n h
    simp only [blankLine1] at h
    split at h
    · simp at h; omega
    · split at h
      · cases hr : blankLine1 r with
        | none => simp [hr] at h
        | some k =>
          simp only [hr, Option.map_some] at h
          have := ih k hr
          simp at h
          omega
      · simp at h

lemma takeWhile_len_le {α} (p : α → Bool) (l : List α) :
    (l.takeWhile p).length ≤ l.length := by
  induction l with
  | nil => simp
  | cons c r ih =>
    simp only [List.takeWhile_cons]
    split
    · simpa using ih
    · simp

lemma tryRuleAt_facts {r : String} {src : Src} {p : Nat} {m : RMatch}
    (h : tryRuleAt r src p = some m) :
    m.rule = r ∧ m.mstart = p ∧ p ≤ m.mend ∧ lineStart src p = true := by
  unfold tryRuleAt at h
  split at h
  · rename_i hls
    cases hc : tryRuleCore r (src.drop p) with
    | none => simp [hc] at h
    | some x =>
      simp only [hc, Option.map_some] at h
      cases h
      simp [hls]
  · simp at h

lemma scMatchAt_facts {src : Src} {p : Nat} {m : RMatch} :
    ∀ rules : List String, scMatchAt rules src p = some m →
      m.rule ∈ rules ∧ m.mstart = p ∧ tryRuleAt m.rule src p = some m := by
  intro rules
  induction rules with
  | nil => intro h; simp [scMatchAt] at h
  | cons r rs ih =>
    intro h
    simp only [scMatchAt] at h
    cases ht : tryRuleAt r src p with
    | none =>
      rw [ht] at h
      have := ih h
      exact ⟨List.mem_cons_of_mem _ this.1, this.2.1, this.2.2⟩
    | some m' =>
      rw [ht] at h
      cases h
      have hf := tryRuleAt_facts ht
      refine ⟨?_, hf.2.1, ?_⟩
      · rw [hf.1]; exact List.mem_cons_self _ _
      · rw [hf.1]; exact ht

lemma searchGo_facts {α} {matchAt : Nat → Option α} {q : Nat} {a : α} :
    ∀ fuel p, searchGo matchAt fuel p = some (q, a) →
      p ≤ q ∧ matchAt q = some a ∧ (matchAt p = none → p < q) := by
  intro fuel
  induction fuel with
  | zero => intro p h; simp [searchGo] at h
  | succ f ih =>
    intro p h
    simp only [searchGo] at h
    cases hm : matchAt p with
    | none =>
      rw [hm] at h
      have := ih (p + 1) h
      exact ⟨by omega, this.2.1, fun _ => by omega⟩
    | some a' =>
      rw [hm] at h
      have hinj : p = q ∧ a' = a := by simpa using h
      obtain ⟨hq1, hq2⟩ := hinj
      subst hq1; subst hq2
      exact ⟨le_rfl, hm, fun hc => absurd hc (by simp)⟩

lemma strFindGo_ge {pat src : Src} {q : Nat} :
    ∀ fuel p, strFindGo pat src fuel p = some q → p ≤ q := by
  intro fuel
  induction fuel with
  | zero => intro p h; simp [strFindGo] at h
  | succ f ih =>
    intro p h
    simp only [strFindGo] at h
    split at h
    · cases h; exact le_rfl
    · have := ih (p + 1) h
      omega

lemma strFind_ge {pat src : Src} {p q : Nat} (h : strFind pat src p = some q) : p ≤ q :=
  strFindGo_ge _ p h

/-! ### State-operation lemmas -/

lemma find_line_end_gt (s : State) (h : s.cursor < s.cursorMax) :
    s.cursor < s.find_line_end := by
  unfold State.find_line_end
  cases hf : (s.src.drop s.cursor).findIdx? (fun c => c == '\n') with
  | none => simpa using h
  | some i => simp; omega

lemma append_token_fields (s : State) (t : Token) :
    (s.append_token t).src = s.src ∧ (s.append_token t).cursor = s.cursor ∧
    (s.append_token t).cursorMax = s.cursorMax ∧
    (s.append_token t).refLinks = s.refLinks ∧
    (s.append_token t).depth = s.depth := by
  unfold State.append_token
  simp

lemma append_paragraph_fields (s : State) :
    (s.append_paragraph).2.src = s.src ∧ (s.append_paragraph).2.cursor = s.cursor ∧
    (s.append_paragraph).2.cursorMax = s.cursorMax ∧
    (s.append_paragraph).2.refLinks = s.refLinks ∧
    (s.append_paragraph).2.depth = s.depth := by
  unfold State.append_paragraph
  split <;> first
    | (split <;> simp)
    | simp

lemma append_paragraph_none (s : State) (h : (s.append_paragraph).1 = none) :
    (s.append_paragraph).2 = s := by
  unfold State.append_paragraph at *
  split at h <;> first
    | (split at h <;> simp_all)
    | simp_all

lemma append_paragraph_some (s : State) {e : Nat}
    (h : (s.append_paragraph).1 = some e) : e = s.find_line_end := by
  unfold State.append_paragraph at h
  split at h <;> first
    | (split at h <;> simp_all)
    | simp_all

/-! ### Handler postconditions -/

/-- Post-conditions of one handler invocation at a match starting at
`mstart`: source and cursor_max are untouched, the cursor never moves
backwards, a declining handler leaves the state unchanged, and an
accepted end position lies strictly beyond the match start. -/
def HandlerOK (mstart : Nat) (s : State) (out : Option Nat × State) : Prop :=
  out.2.src = s.src ∧ out.2.cursorMax = s.cursorMax ∧ s.cursor ≤ out.2.cursor ∧
  (out.1 = none → out.2 = s) ∧ (∀ e, out.1 = some e → mstart < e)

lemma handlerOK_append {mstart : Nat} (s : State) (e : Nat) (t : Token)
    (he : mstart < e) : HandlerOK mstart s (some e, s.append_token t) := by
  have hf := append_token_fields s t
  exact ⟨hf.1, hf.2.2.1, le_of_eq hf.2.1.symm, by simp,
    fun e' h' => by cases h'; exact he⟩

lemma handlerOK_of_append_paragraph {s : State} {e : Nat} {s1 : State} (mstart : Nat)
    (hc : s.cursor = mstart) (hmax : mstart < s.cursorMax)
    (h : s.append_paragraph = (some e, s1)) : HandlerOK mstart s (some e, s1) := by
  have hf := append_paragraph_fields s
  rw [h] at hf
  have he : e = s.find_line_end := append_paragraph_some s (by rw [h])
  have hgt := find_line_end_gt s (by omega)
  exact ⟨hf.1, hf.2.2.1, le_of_eq hf.2.1.symm, by simp,
    fun e' h' => by cases h'; omega⟩

lemma parse_thematic_break_ok {m : RMatch} {s : State}
    (hv : tryRuleAt "thematic_break" s.src m.mstart = some m) :
    HandlerOK m.mstart s (parse_thematic_break m s) :=
  handlerOK_append s (m.mend + 1) _
    (by have := (tryRuleAt_facts hv).2.2.1; omega)

lemma grp_fenced2 (r : String) (p q : Nat) (a b c : Src) :
    RMatch.grp ⟨r, p, q, [("fenced_1", a), ("fenced_2", b), ("fenced_3", c)]⟩
      "fenced_2" = b := rfl

lemma coreFenced_marker_len {l : Src} {x : Nat × List (String × Src)}
    (h : coreFenced l = some x) :
    ∃ a b c, x.2 = [("fenced_1", a), ("fenced_2", b), ("fenced_3", c)] ∧
      3 ≤ b.length := by
  simp only [coreFenced] at h
  split at h
  · rename_i ch tail heq
    split at h
    · split at h
      · rename_i hck hrun
        injection h with h2
        refine ⟨_, _, _, congrArg Prod.snd h2.symm, ?_⟩
        rw [List.length_take]
        have hle : countPre ch ((takeLine l).drop (min (countPre ' ' (takeLine l)) 3))
            ≤ ((takeLine l).drop (min (countPre ' ' (takeLine l)) 3)).length :=
          takeWhile_len_le _ _
        omega
      · exact absurd h (by simp)
    · exact absurd h (by simp)
  · exact absurd h (by simp)

lemma fenced_match_marker {src : Src} {p : Nat} {m : RMatch}
    (h : tryRuleAt "fenced_code" src p = some m) :
    3 ≤ (m.grp "fenced_2").length := by
  unfold tryRuleAt at h
  split at h
  · rw [show tryRuleCore "fenced_code" (src.drop p) = coreFenced (src.drop p)
      from rfl] at h
    cases hcf : coreFenced (src.drop p) with
    | none => simp [hcf] at h
    | some x =>
      simp only [hcf, Option.map_some] at h
      obtain ⟨a, b, c, hx2, hlen⟩ := coreFenced_marker_len hcf
      cases h
      show 3 ≤ (RMatch.grp ⟨"fenced_code", p, p + x.1, x.2⟩ "fenced_2").length
      rw [show (⟨"fenced_code", p, p + x.1, x.2⟩ : RMatch)
          = ⟨"fenced_code", p, p + x.1, [("fenced_1", a), ("fenced_2", b), ("fenced_3", c)]⟩
          from by rw [← hx2]]
      rw [grp_fenced2]
      exact hlen
  · simp at h

lemma fenceCloseAt_lt {c : Char} {n : Nat} {src : Src} {p e : Nat}
    (hn : 1 ≤ n) (h : fenceCloseAt c n src p = some e) : p < e := by
  unfold fenceCloseAt at h
  split at h
  · simp only [] at h
    split at h
    · rename_i hrun
      split at h
      · injection h with h2
        -- the close line is non-empty, so p is inside the buffer
        have h1 : 1 ≤ countPre c ((takeLine (src.drop p)).drop
            (min (countPre ' ' (takeLine (src.drop p))) 3)) := le_trans hn hrun
        have h2' : countPre c ((takeLine (src.drop p)).drop
              (min (countPre ' ' (takeLine (src.drop p))) 3))
            ≤ ((takeLine (src.drop p)).drop
              (min (countPre ' ' (takeLine (src.drop p))) 3)).length :=
          takeWhile_len_le _ _
        have h3 : ((takeLine (src.drop p)).drop
              (min (countPre ' ' (takeLine (src.drop p))) 3)).length
            ≤ (takeLine (src.drop p)).length := by
          rw [List.length_drop]; omega
        have h4 : (takeLine (src.drop p)).length ≤ (src.drop p).length :=
          takeWhile_len_le _ _
        rw [List.length_drop] at h4
        omega
      · exact absurd h (by simp)
    · exact absurd h (by simp)
  · exact absurd h (by simp)

lemma parse_fenced_code_ok {m : RMatch} {s : State}
    (hv : tryRuleAt "fenced_code" s.src m.mstart = some m)
    (hmax : m.mstart < s.cursorMax) :
    HandlerOK m.mstart s (parse_fenced_code m s) := by
  have hml := fenced_match_marker hv
  have hme := (tryRuleAt_facts hv).2.2.1
  unfold parse_fenced_code
  simp only []
  split
  · exact ⟨rfl, rfl, le_rfl, fun _ => rfl, fun e h => by cases h⟩
  · split
    · rename_i pr st en heq
      refine handlerOK_append s en _ ?_
      have hf := searchGo_facts _ _ heq
      have hlt := fenceCloseAt_lt (c := (m.grp "fenced_2").headD 'x')
        (by omega : 1 ≤ (m.grp "fenced_2").length) hf.2.1
      omega
    · exact handlerOK_append s s.cursorMax _ hmax

lemma skipWs1Nl_ge (src : Src) (p : Nat) : p ≤ skipWs1Nl src p := by
  unfold skipWs1Nl
  simp only []
  split <;> omega

lemma parse_link_href_gt {src : Src} {pos : Nat} {h0 : Src} {p' : Nat}
    (hh : parse_link_href src pos = (some h0, p')) : pos < p' := by
  have hsk := skipWs1Nl_ge src pos
  unfold parse_link_href at hh
  simp only [] at hh
  split at hh
  · split at hh
    · injection hh with h1 h2; omega
    · exact absurd hh (by simp)
  · split at hh
    · exact absurd hh (by simp)
    · rename_i hne
      injection hh with h1 h2
      have hlen : 1 ≤ ((src.drop (skipWs1Nl src pos)).takeWhile
          (fun c => !(isWsC c))).length := by
        cases hcl : (src.drop (skipWs1Nl src pos)).takeWhile (fun c => !(isWsC c)) with
        | nil => rw [hcl] at hne; simp at hne
        | cons a t => simp [hcl]
      omega

lemma parse_link_title_gt {src : Src} {sp mp : Nat} {t0 : Option Src} {tp : Nat}
    (h : parse_link_title src sp mp = (t0, some tp)) : sp < tp := by
  have hsk := skipWs1Nl_ge src sp
  unfold parse_link_title at h
  simp only [] at h
  split at h
  · split at h
    · injection h with h1 h2
      injection h2 with h2
      omega
    · exact absurd h (by simp)
  · exact absurd h (by simp)

lemma blankToLine_pos {l : Src} {n : Nat} (h : blankToLine l = some n) : 1 ≤ n := by
  unfold blankToLine at h
  simp only [] at h
  split at h
  · split at h
    · injection h with h1; omega
    · exact absurd h (by simp)
  · exact absurd h (by simp)

lemma handlerOK_decline {mstart : Nat} (s : State) : HandlerOK mstart s (none, s) :=
  ⟨rfl, rfl, le_rfl, fun _ => rfl, fun e he => by cases he⟩

lemma refLinkScan_gt {src : Src} {cm pos e : Nat} {attrs : List (String × AttrV)}
    (h : refLinkScan src cm pos = some (e, attrs)) : pos < e := by
  unfold refLinkScan at h
  cases hh : parse_link_href src pos with
  | mk ho hp =>
    cases ho with
    | none => rw [hh] at h; cases h
    | some href0 =>
      rw [hh] at h
      dsimp only [] at h
      have hgt := parse_link_href_gt hh
      cases hpt : parse_link_title src hp
          (match blankSearch src hp with
           | some (st, _) => st
           | none => cm) with
      | mk t0 tp0 =>
        rw [hpt] at h
        dsimp only [] at h
        cases tp0 with
        | some tp =>
          dsimp only [] at h
          have htp := parse_link_title_gt hpt
          cases hbl : blankToLine (src.drop tp) with
          | some n =>
            rw [hbl] at h
            have h2 : tp + n = e := by
              have := congrArg (fun x => Option.map Prod.fst x) h
              simpa using this
            omega
          | none =>
            rw [hbl] at h
            cases hbl2 : blankToLine (src.drop hp) with
            | some n2 =>
              rw [hbl2] at h
              have h2 : hp + n2 = e := by
                have := congrArg (fun x => Option.map Prod.fst x) h
                simpa using this
              omega
            | none => rw [hbl2] at h; cases h
        | none =>
          dsimp only [] at h
          cases hbl2 : blankToLine (src.drop hp) with
          | some n2 =>
            rw [hbl2] at h
            have h2 : hp + n2 = e := by
              have := congrArg (fun x => Option.map Prod.fst x) h
              simpa using this
            omega
          | none => rw [hbl2] at h; cases h

lemma countPre_getD (c : Char) : ∀ (l : Src) (j : Nat),
    j < countPre c l → l.getD j 'x' = c := by
  intro l
  induction l with
  | nil => intro j hj; simp [countPre] at hj
  | cons a t ih =>
    intro j hj
    unfold countPre at hj
    rw [List.takeWhile_cons] at hj
    by_cases ha : (a == c) = true
    · rw [if_pos ha] at hj
      simp only [List.length_cons] at hj
      cases j with
      | zero => simpa using ha
      | succ j' =>
        simp only [List.getD_cons_succ]
        exact ih j' (by unfold countPre; omega)
    · rw [if_neg ha] at hj
      simp at hj

lemma blankLine1_none_of_marker : ∀ (l : Src) (k : Nat) {c : Char} {r : Src},
    l.drop k = c :: r → isBlankC c = false → (c == '\n') = false →
    (∀ j, j < k → l.getD j 'x' = ' ') → blankLine1 l = none := by
  intro l
  induction l with
  | nil => intro k c r hd _ _ _; rw [List.drop_nil] at hd; cases hd
  | cons a t ih =>
    intro k c r hd hb hn hsp
    cases k with
    | zero =>
      simp only [List.drop_zero] at hd
      cases hd
      simp [blankLine1, hn, hb]
    | succ k' =>
      have ha : a = ' ' := by have := hsp 0 (by omega); simpa using this
      subst ha
      rw [List.drop_succ_cons] at hd
      have hrec := ih k' hd hb hn
        (fun j hj => by have := hsp (j + 1) (by omega); simpa using this)
      simp [blankLine1, hrec]

lemma blankRun_none {l : Src} (h1 : blankLine1 l = none) : blankRun l = none := by
  unfold blankRun blankRunGo
  simp [h1]

lemma not_blank_of_head_lt {l : Src} {r1 : Src}
    (hd : l.drop (min (countPre ' ' l) 3) = '<' :: r1) : blankRun l = none := by
  apply blankRun_none
  apply blankLine1_none_of_marker l (min (countPre ' ' l) 3) hd (by decide) (by decide)
  intro j hj
  exact countPre_getD ' ' l j (by omega)

lemma coreBlockHtml_head {l : Src} {x : Nat × List (String × Src)}
    (h : coreBlockHtml l = some x) :
    ∃ r1, l.drop (min (countPre ' ' l) 3) = '<' :: r1 := by
  simp only [coreBlockHtml] at h
  split at h
  · exact ⟨_, by assumption⟩
  · exact absurd h (by simp)

lemma parseHtmlToEnd_ok {mstart : Nat} {s : State} {em : Src} {startPos : Nat}
    (hsp : mstart ≤ startPos) (hcur : s.cursor ≤ startPos)
    (hmax : mstart < s.cursorMax) :
    HandlerOK mstart s (parseHtmlToEnd s em startPos) := by
  unfold parseHtmlToEnd
  cases hf : strFind em s.src startPos with
  | none => exact handlerOK_append s s.cursorMax _ hmax
  | some mp =>
    have hge := strFind_ge hf
    dsimp only []
    have hfle : mstart < State.find_line_end { s with cursor := mp } := by
      unfold State.find_line_end
      cases hfi : (({ s with cursor := mp } : State).src.drop mp).findIdx?
          (fun c => c == '\n') with
      | some i => simp [hfi]; omega
      | none => simp [hfi]; exact hmax
    refine ⟨?_, ?_, ?_, ?_, ?_⟩
    · exact (append_token_fields _ _).1
    · exact (append_token_fields _ _).2.2.1
    · rw [(append_token_fields _ _).2.1]
      exact le_trans hcur hge
    · intro hcon; cases hcon
    · intro e he; cases he; exact hfle

lemma parseHtmlToNewline_ok {mstart : Nat} {s : State}
    (hc : s.cursor = mstart) (hmax : mstart < s.cursorMax)
    (hblank : blankRun (s.src.drop s.cursor) = none) :
    HandlerOK mstart s (parseHtmlToNewline s) := by
  unfold parseHtmlToNewline
  cases hbs : blankSearch s.src s.cursor with
  | none => exact handlerOK_append s s.cursorMax _ hmax
  | some pr =>
    cases pr with
    | mk st en =>
      unfold blankSearch at hbs
      cases hsg : searchGo
          (fun q => if lineStart s.src q then blankRun (s.src.drop q) else none)
          (s.src.length + 1 - s.cursor) s.cursor with
      | none => rw [hsg] at hbs; simp at hbs
      | some pr2 =>
        rw [hsg] at hbs
        cases pr2 with
        | mk q n =>
          simp at hbs
          have hf := searchGo_facts _ _ hsg
          have hq : s.cursor < q := hf.2.2 (by split <;> simp [hblank])
          exact handlerOK_append s st _ (by omega)

lemma tryRuleAt_core {r : String} {src : Src} {p : Nat} {m : RMatch}
    (h : tryRuleAt r src p = some m) :
    ∃ x, tryRuleCore r (src.drop p) = some x := by
  unfold tryRuleAt at h
  split at h
  · cases hc : tryRuleCore r (src.drop p) with
    | none => simp [hc] at h
    | some x => exact ⟨x, rfl⟩
  · simp at h

lemma parse_raw_html_ok_aux {m : RMatch} {s : State}
    (hhead : ∃ r1, (s.src.drop m.mstart).drop
      (min (countPre ' ' (s.src.drop m.mstart)) 3) = '<' :: r1)
    (hme : m.mstart ≤ m.mend) (hc : s.cursor = m.mstart)
    (hmax : m.mstart < s.cursorMax) :
    HandlerOK m.mstart s (parse_raw_html m s) := by
  obtain ⟨r1, hd⟩ := hhead
  have hblank : blankRun (s.src.drop s.cursor) = none := by
    rw [hc]; exact not_blank_of_head_lt hd
  have hcs : s.cursor ≤ m.mend := le_of_eq_of_le hc hme
  unfold parse_raw_html rawHtmlDispatch
  split
  · exact parseHtmlToEnd_ok hme hcs hmax
  · split
    · exact parseHtmlToEnd_ok hme hcs hmax
    · split
      · exact parseHtmlToEnd_ok hme hcs hmax
      · split
        · exact parseHtmlToEnd_ok hme hcs hmax
        · split
          · -- close-tag branch
            split
            · exact parseHtmlToNewline_ok hc hmax hblank
            · cases hap : s.append_paragraph with
              | mk o s1 =>
                cases o with
                | some e => exact handlerOK_of_append_paragraph _ hc hmax hap
                | none =>
                  dsimp only []
                  split
                  · exact parseHtmlToNewline_ok hc hmax hblank
                  · exact handlerOK_decline s
          · -- open-tag branch
            split
            · exact parseHtmlToEnd_ok hme hcs hmax
            · split
              · exact parseHtmlToNewline_ok hc hmax hblank
              · cases hap : s.append_paragraph with
                | mk o s1 =>
                  cases o with
                  | some e => exact handlerOK_of_append_paragraph _ hc hmax hap
                  | none =>
                    dsimp only []
                    split
                    · exact parseHtmlToNewline_ok hc hmax hblank
                    · exact handlerOK_decline s

lemma parse_block_html_ok {m : RMatch} {s : State}
    (hv : tryRuleAt "block_html" s.src m.mstart = some m)
    (hc : s.cursor = m.mstart) (hmax : m.mstart < s.cursorMax) :
    HandlerOK m.mstart s (parse_block_html m s) := by
  obtain ⟨x, hx⟩ := tryRuleAt_core hv
  rw [show tryRuleCore "block_html" (s.src.drop m.mstart)
    = coreBlockHtml (s.src.drop m.mstart) from rfl] at hx
  exact parse_raw_html_ok_aux (coreBlockHtml_head hx) (tryRuleAt_facts hv).2.2.1 hc hmax

lemma listEarly_some {cond : Bool} {s : State} {e : Nat} {s1 : State}
    (h : listEarly cond s = some (e, s1)) : s.append_paragraph = (some e, s1) := by
  unfold listEarly at h
  split at h
  · cases hap : s.append_paragraph with
    | mk o s2 =>
      cases o with
      | some e' =>
        rw [hap] at h
        have h1 : e' = e ∧ s2 = s1 := by simpa using h
        rw [h1.1, h1.2]
      | none => rw [hap] at h; simp at h
  · cases h

lemma listEarly_some_eq {cond : Bool} {s : State} {pr : Nat × State}
    (h : listEarly cond s = some pr) : s.append_paragraph = (some pr.1, pr.2) := by
  cases pr with
  | mk e s1 => exact listEarly_some h


lemma listBreakDispatch_ok {m : RMatch} {s : State}
    (hv : tryRuleAt m.rule s.src m.mstart = some m)
    (hc : s.cursor = m.mstart) (hmax : m.mstart < s.cursorMax) :
    HandlerOK m.mstart s (listBreakDispatch m s) := by
  unfold listBreakDispatch
  split
  · rename_i hr
    rw [show m.rule = "thematic_break" from by simpa using hr] at hv
    exact parse_thematic_break_ok hv
  · split
    · rename_i hr
      rw [show m.rule = "fenced_code" from by simpa using hr] at hv
      exact parse_fenced_code_ok hv hmax
    · split
      · rename_i hr
        rw [show m.rule = "block_html" from by simpa using hr] at hv
        exact parse_block_html_ok hv hc hmax
      · exact handlerOK_decline s

lemma listScan_ok (contIndent : Nat) :
    ∀ fuel (s : State) (cur : Src) (items : List Src) (pb loose : Bool),
      (listScan contIndent fuel s cur items pb loose).2.2.2.src = s.src ∧
      (listScan contIndent fuel s cur items pb loose).2.2.2.cursorMax
        = s.cursorMax ∧
      s.cursor ≤ (listScan contIndent fuel s cur items pb loose).2.2.2.cursor ∧
      (∀ e, (listScan contIndent fuel s cur items pb loose).2.1 = some e →
        s.cursor < e) := by
  intro fuel
  induction fuel with
  | zero => intro s cur items pb loose; exact ⟨rfl, rfl, le_rfl, fun e he => nomatch he⟩
  | succ f ih =>
    intro s cur items pb loose
    unfold listScan
    split
    · rename_i hcm
      cases hm2 : tryRuleAt "list" s.src s.cursor with
      | some m2 =>
        have hf2 := tryRuleAt_facts hm2
        have hgt : s.cursor < m2.mend + 1 := by
          have h1 := hf2.2.1
          have h2 := hf2.2.2.1
          omega
        try dsimp only []
        have hrec := ih { s with cursor := m2.mend + 1 }
          (m2.grp "list_3" ++ ['\n']) (items ++ [cur]) false (loose || pb)
        refine ⟨hrec.1, hrec.2.1, le_trans (le_of_lt hgt) hrec.2.2.1, ?_⟩
        intro e' he'
        exact lt_trans hgt (hrec.2.2.2 e' he')
      | none =>
        try dsimp only []
        have hfle := find_line_end_gt s hcm
        split
        · have hrec := ih { s with cursor := s.find_line_end }
            (cur ++ s.get_text s.find_line_end) items true loose
          refine ⟨hrec.1, hrec.2.1, le_trans (le_of_lt hfle) hrec.2.2.1, ?_⟩
          intro e' he'
          exact lt_trans hfle (hrec.2.2.2 e' he')
        · split
          · have hrec := ih { s with cursor := s.find_line_end }
              (cur ++ (s.get_text s.find_line_end).drop
                (min (countPre ' ' (s.get_text s.find_line_end)) contIndent))
              items false (loose || pb)
            refine ⟨hrec.1, hrec.2.1, le_trans (le_of_lt hfle) hrec.2.2.1, ?_⟩
            intro e' he'
            exact lt_trans hfle (hrec.2.2.2 e' he')
          · cases hm3 : scMatchAt listBreakRules s.src s.cursor with
            | none =>
              try dsimp only []
              have hrec := ih { s with cursor := s.find_line_end }
                (cur ++ s.get_text s.find_line_end) items false (loose || pb)
              refine ⟨hrec.1, hrec.2.1, le_trans (le_of_lt hfle) hrec.2.2.1, ?_⟩
              intro e' he'
              exact lt_trans hfle (hrec.2.2.2 e' he')
            | some m3 =>
              rw [show Option.map (fun m2 => listBreakDispatch m2 s) (some m3)
                = some (listBreakDispatch m3 s) from rfl]
              have hf3 := scMatchAt_facts _ hm3
              have hst : m3.mstart = s.cursor := hf3.2.1
              have hok : HandlerOK m3.mstart s (listBreakDispatch m3 s) :=
                listBreakDispatch_ok (by rw [hst]; exact hf3.2.2) hst.symm
                  (by rw [hst]; exact hcm)
              cases hbd : listBreakDispatch m3 s with
              | mk res s2 =>
                rw [hbd] at hok
                cases res with
                | some e =>
                  try dsimp only []
                  refine ⟨hok.1, hok.2.1, hok.2.2.1, ?_⟩
                  intro e' he'
                  have : e = e' := by simpa using he'
                  subst this
                  rw [← hst]
                  exact hok.2.2.2.2 e rfl
                | none =>
                  have hs2 : s2 = s := hok.2.2.2.1 rfl
                  rw [hs2]
                  have hrec := ih { s with cursor := s.find_line_end }
                    (cur ++ s.get_text s.find_line_end) items false (loose || pb)
                  refine ⟨hrec.1, hrec.2.1, le_trans (le_of_lt hfle) hrec.2.2.1, ?_⟩
                  intro e' he'
                  exact lt_trans hfle (hrec.2.2.2 e' he')
    · exact ⟨rfl, rfl, le_rfl, fun e he => nomatch he⟩

lemma listItemsGo_fields (conf : Conf) (parseFn : List String → State → State) :
    ∀ (items : List Src) (s : State),
      (listItemsGo conf parseFn items s).2.src = s.src ∧
      (listItemsGo conf parseFn items s).2.cursor = s.cursor ∧
      (listItemsGo conf parseFn items s).2.cursorMax = s.cursorMax ∧
      (listItemsGo conf parseFn items s).2.tokens = s.tokens := by
  intro items
  induction items with
  | nil => intro s; exact ⟨rfl, rfl, rfl, rfl⟩
  | cons t rest ih =>
    intro s
    unfold listItemsGo
    dsimp only []
    cases hrec : listItemsGo conf parseFn rest
        { s with refLinks :=
            (parseFn conf.list_rules (s.child_state (expand_tab t))).refLinks } with
    | mk toks s2 =>
      have hf := ih { s with refLinks :=
        (parseFn conf.list_rules (s.child_state (expand_tab t))).refLinks }
      rw [hrec] at hf
      exact hf

lemma assembleList_ok (conf : Conf) (parseFn : List String → State → State)
    (attrs : List (String × AttrV)) (groups : Src × Src × Src) (s : State) :
    (assembleList conf parseFn attrs groups s).1.ttype = "list" ∧
    (assembleList conf parseFn attrs groups s).2.2.src = s.src ∧
    (assembleList conf parseFn attrs groups s).2.2.cursorMax = s.cursorMax ∧
    s.cursor ≤ (assembleList conf parseFn attrs groups s).2.2.cursor ∧
    (∀ e, (assembleList conf parseFn attrs groups s).2.1 = some e →
      s.cursor < e) := by
  unfold assembleList
  cases hsc : listScan (groups.1.length + groups.2.1.length + 1)
      (s.cursorMax + 1 - s.cursor) s (groups.2.2 ++ ['\n']) [] false false with
  | mk items rest =>
    obtain ⟨endPos, loose, s1⟩ := rest
    have hl := listScan_ok (groups.1.length + groups.2.1.length + 1)
      (s.cursorMax + 1 - s.cursor) s (groups.2.2 ++ ['\n']) [] false false
    rw [hsc] at hl
    dsimp only [] at hl
    have hf := listItemsGo_fields conf parseFn items s1
    dsimp only []
    refine ⟨rfl, hf.1.trans hl.1, (hf.2.2.1).trans hl.2.1, ?_, ?_⟩
    · rw [hf.2.1]
      exact hl.2.2.1
    · intro e he
      exact hl.2.2.2 e he

/-- C3 (counterexample): the block_quote rule is already removed from
the child rule list one level below the configured limit: at depth 5
with the default max_nested_level of 6 the child list loses block_quote,
so the threshold is depth ≥ max_nested_level - 1, not "reaching" the
limit. -/
theorem C3_counterexample :
    5 < defaultConf.max_nested_level ∧
    blockQuoteChildRules 5 defaultConf.max_nested_level
        defaultConf.block_quote_rules ≠ defaultConf.block_quote_rules ∧
    blockQuoteChildRules 5 defaultConf.max_nested_level
        defaultConf.block_quote_rules
      = defaultConf.block_quote_rules.erase "block_quote" := by
  exact ⟨by decide, by decide, by decide⟩

/-- C3 (amended): the block-quote handler removes the block_quote rule
from the child rule list exactly when the current depth is at least
max_nested_level - 1; below that threshold the child receives the full
block_quote_rules list.  With the pruned default list, block_quote is
gone from the child rules. -/
theorem C3_nesting_limit (depth maxNested : Nat) (rules : List String) :
    (maxNested - 1 ≤ depth →
      blockQuoteChildRules depth maxNested rules = rules.erase "block_quote") ∧
    (depth < maxNested - 1 →
      blockQuoteChildRules depth maxNested rules = rules) ∧
    (maxNested - 1 ≤ depth →
      "block_quote" ∉
        blockQuoteChildRules depth maxNested defaultConf.block_quote_rules) := by
  refine ⟨?_, ?_, ?_⟩
  · intro h
    unfold blockQuoteChildRules
    rw [if_pos h]
  · intro h
    unfold blockQuoteChildRules
    rw [if_neg (by omega)]
  · intro h
    unfold blockQuoteChildRules
    rw [if_pos h]
    decide

/-- C3 (witness): the nesting-limit theorem applied at depth 5 and 4
with the default configuration. -/
theorem C3_nesting_witness :
    (blockQuoteChildRules 5 6 defaultConf.block_quote_rules
      = defaultConf.block_quote_rules.erase "block_quote") ∧
    (blockQuoteChildRules 4 6 defaultConf.block_quote_rules
      = defaultConf.block_quote_rules) ∧
    "block_quote" ∉
      blockQuoteChildRules 5 6 defaultConf.block_quote_rules :=
  ⟨(C3_nesting_limit 5 6 defaultConf.block_quote_rules).1 (by decide),
   (C3_nesting_limit 4 6 defaultConf.block_quote_rules).2.1 (by decide),
   (C3_nesting_limit 5 6 defaultConf.block_quote_rules).2.2 (by decide)⟩

lemma append_paragraph_para {s : State} {last : Token}
    (hl : s.tokens.getLast? = some last) (hp : last.ttype = "paragraph") :
    s.append_paragraph =
      (some s.find_line_end,
       { s with tokens := s.tokens.dropLast ++
           [Token.mk "paragraph"
             (some (last.text.getD [] ++ s.get_text s.find_line_end))
             last.raw last.attrs last.children] }) := by
  unfold State.append_paragraph
  rw [hl]
  dsimp only []
  rw [if_pos (show (last.ttype == "paragraph") = true from by simp [hp])]

lemma tokens_dropLast_len {s : State} {last : Token}
    (hl : s.tokens.getLast? = some last) (t : Token) :
    (s.tokens.dropLast ++ [t]).length = s.tokens.length := by
  have hne : s.tokens ≠ [] := by
    intro h
    rw [h] at hl
    simp at hl
  have hlen : s.tokens.length ≠ 0 := by
    simpa using fun hh => hne (List.length_eq_zero.mp hh)
  simp [List.length_dropLast]
  omega

/-- C4: while the last emitted token is an open paragraph, a list match
with whitespace-only item content, or with an ordered marker whose start
value is not 1, merges into that paragraph — the handler returns the
merged end position and the token count is unchanged, so no list token
is emitted; otherwise a token of type list is built from the assembler's
output: it is appended and the cursor after the consumed span returned
when no early end was reported, and prepended before the dispatched
sibling token with the earlier end position returned when one was. -/
theorem C4_list_interrupt (conf : Conf)
    (parseFn : List String → State → State) (m : RMatch) (s : State)
    (last : Token) (hl : s.tokens.getLast? = some last)
    (hp : last.ttype = "paragraph") :
    (allWs (m.grp "list_3") = true →
      (parse_list conf parseFn m s).1 = some s.find_line_end ∧
      (parse_list conf parseFn m s).2.tokens.length = s.tokens.length) ∧
    (listOrdered m = true → listStart m ≠ 1 →
      (parse_list conf parseFn m s).1 = some s.find_line_end ∧
      (parse_list conf parseFn m s).2.tokens.length = s.tokens.length) ∧
    (allWs (m.grp "list_3") = false →
      (listOrdered m && listStart m != 1) = false →
      ∀ token endPos0 s3,
        assembleList conf parseFn
            [("ordered", AttrV.bool (listOrdered m)), ("tight", AttrV.bool true)]
            (m.grp "list_1", m.grp "list_2", m.grp "list_3")
            { s with cursor := m.mend + 1 } = (token, endPos0, s3) →
        token.ttype = "list" ∧
        (listChildAttrs token).ttype = "list" ∧
        (endPos0 = none →
          parse_list conf parseFn m s
            = (some s3.cursor, s3.append_token (listChildAttrs token))) ∧
        (∀ e, endPos0 = some e →
          parse_list conf parseFn m s
            = (some e, s3.prepend_token (listChildAttrs token)))) := by
  have hap := append_paragraph_para hl hp
  have hle : listEarly true s =
      some (s.find_line_end,
        { s with tokens := s.tokens.dropLast ++
            [Token.mk "paragraph"
              (some (last.text.getD [] ++ s.get_text s.find_line_end))
              last.raw last.attrs last.children] }) := by
    unfold listEarly
    rw [if_pos rfl, hap]
  refine ⟨?_, ?_, ?_⟩
  · intro hws
    unfold parse_list
    rw [hws, hle]
    exact ⟨rfl, tokens_dropLast_len hl _⟩
  · intro hord hstart
    unfold parse_list
    cases hws : allWs (m.grp "list_3") with
    | true =>
      rw [hle]
      exact ⟨rfl, tokens_dropLast_len hl _⟩
    | false =>
      rw [show listEarly false s = none from rfl]
      dsimp only []
      have hcond : (listOrdered m && listStart m != 1) = true := by
        rw [hord]
        simp [bne_iff_ne, hstart]
      rw [hcond, hle]
      exact ⟨rfl, tokens_dropLast_len hl _⟩
  · intro hws hcond token endPos0 s3 hasm
    have ha := assembleList_ok conf parseFn
      [("ordered", AttrV.bool (listOrdered m)), ("tight", AttrV.bool true)]
      (m.grp "list_1", m.grp "list_2", m.grp "list_3")
      { s with cursor := m.mend + 1 }
    rw [hasm] at ha
    refine ⟨ha.1, ha.1, ?_, ?_⟩
    · intro h0
      subst h0
      unfold parse_list
      rw [hws]
      rw [show listEarly false s = none from rfl]
      dsimp only []
      rw [hcond]
      rw [show listEarly false s = none from rfl]
      dsimp only []
      rw [if_neg (show ¬ (false = true) from by simp)]
      rw [hasm]
    · intro e h0
      subst h0
      unfold parse_list
      rw [hws]
      rw [show listEarly false s = none from rfl]
      dsimp only []
      rw [hcond]
      rw [show listEarly false s = none from rfl]
      dsimp only []
      rw [if_neg (show ¬ (false = true) from by simp)]
      rw [hasm]


/-- C4 (witness): the list-interruption theorem applied on concrete
states: after an open paragraph, "5. x" (ordered start 5) merges into
the paragraph, while "1. x" builds a list token from the assembler's
output and appends it. -/
theorem C4_list_witness :
    ((parse_list defaultConf (parseK defaultConf 9)
        ⟨"list", 5, 9,
          [("list_1", []), ("list_2", s2l "5."), ("list_3", s2l " x")]⟩
        { mkState (s2l "para\n5. x") with
          cursor := 5
          tokens := [Token.mk "paragraph" (some (s2l "para\n")) none [] none]
        }).1 = some 9 ∧
     (parse_list defaultConf (parseK defaultConf 9)
        ⟨"list", 5, 9,
          [("list_1", []), ("list_2", s2l "5."), ("list_3", s2l " x")]⟩
        { mkState (s2l "para\n5. x") with
          cursor := 5
          tokens := [Token.mk "paragraph" (some (s2l "para\n")) none [] none]
        }).2.tokens.length = 1) ∧
    ((listChildAttrs (assembleList defaultConf (parseK defaultConf 9)
        [("ordered", AttrV.bool true), ("tight", AttrV.bool true)]
        (s2l "", s2l "1.", s2l " x")
        { mkState (s2l "para\n1. x") with
          cursor := 10
          tokens := [Token.mk "paragraph" (some (s2l "para\n")) none [] none]
        }).1).ttype = "list" ∧
     parse_list defaultConf (parseK defaultConf 9)
        ⟨"list", 5, 9,
          [("list_1", []), ("list_2", s2l "1."), ("list_3", s2l " x")]⟩
        { mkState (s2l "para\n1. x") with
          cursor := 5
          tokens := [Token.mk "paragraph" (some (s2l "para\n")) none [] none] }
       = (some (assembleList defaultConf (parseK defaultConf 9)
            [("ordered", AttrV.bool true), ("tight", AttrV.bool true)]
            (s2l "", s2l "1.", s2l " x")
            { mkState (s2l "para\n1. x") with
              cursor := 10
              tokens := [Token.mk "paragraph" (some (s2l "para\n")) none [] none]
            }).2.2.cursor,
          (assembleList defaultConf (parseK defaultConf 9)
            [("ordered", AttrV.bool true), ("tight", AttrV.bool true)]
            (s2l "", s2l "1.", s2l " x")
            { mkState (s2l "para\n1. x") with
              cursor := 10
              tokens := [Token.mk "paragraph" (some (s2l "para\n")) none [] none]
            }).2.2.append_token
            (listChildAttrs (assembleList defaultConf (parseK defaultConf 9)
              [("ordered", AttrV.bool true), ("tight", AttrV.bool true)]
              (s2l "", s2l "1.", s2l " x")
              { mkState (s2l "para\n1. x") with
                cursor := 10
                tokens := [Token.mk "paragraph" (some (s2l "para\n")) none [] none]
              }).1))) :=
  ⟨(C4_list_interrupt defaultConf (parseK defaultConf 9)
      ⟨"list", 5, 9,
        [("list_1", []), ("list_2", s2l "5."), ("list_3", s2l " x")]⟩
      { mkState (s2l "para\n5. x") with
        cursor := 5
        tokens := [Token.mk "paragraph" (some (s2l "para\n")) none [] none] }
      (Token.mk "paragraph" (some (s2l "para\n")) none [] none)
      rfl rfl).2.1 (by decide) (by decide),
   by
    have h := (C4_list_interrupt defaultConf (parseK defaultConf 9)
      ⟨"list", 5, 9,
        [("list_1", []), ("list_2", s2l "1."), ("list_3", s2l " x")]⟩
      { mkState (s2l "para\n1. x") with
        cursor := 5
        tokens := [Token.mk "paragraph" (some (s2l "para\n")) none [] none] }
      (Token.mk "paragraph" (some (s2l "para\n")) none [] none)
      rfl rfl).2.2 (by decide) (by decide)
      (assembleList defaultConf (parseK defaultConf 9)
        [("ordered", AttrV.bool true), ("tight", AttrV.bool true)]
        (s2l "", s2l "1.", s2l " x")
        { mkState (s2l "para\n1. x") with
          cursor := 10
          tokens := [Token.mk "paragraph" (some (s2l "para\n")) none [] none]
        }).1
      (assembleList defaultConf (parseK defaultConf 9)
        [("ordered", AttrV.bool true), ("tight", AttrV.bool true)]
        (s2l "", s2l "1.", s2l " x")
        { mkState (s2l "para\n1. x") with
          cursor := 10
          tokens := [Token.mk "paragraph" (some (s2l "para\n")) none [] none]
        }).2.1
      (assembleList defaultConf (parseK defaultConf 9)
        [("ordered", AttrV.bool true), ("tight", AttrV.bool true)]
        (s2l "", s2l "1.", s2l " x")
        { mkState (s2l "para\n1. x") with
          cursor := 10
          tokens := [Token.mk "paragraph" (some (s2l "para\n")) none [] none]
        }).2.2
      rfl
    exact ⟨h.2.1, h.2.2.1 (by decide)⟩⟩

lemma append_paragraph_some_len {s : State} {e : Nat} {s1 : State}
    (h : s.append_paragraph = (some e, s1)) :
    s1.tokens.length = s.tokens.length := by
  unfold State.append_paragraph at h
  cases hl : s.tokens.getLast? with
  | none =>
    rw [hl] at h
    simp at h
  | some last =>
    rw [hl] at h
    dsimp only [] at h
    split at h
    · simp only [Prod.mk.injEq] at h
      obtain ⟨he, hs1⟩ := h
      rw [← hs1]
      exact tokens_dropLast_len hl _
    · simp at h

lemma parseHtmlToNewline_tokens (s : State) :
    (parseHtmlToNewline s).2.tokens.length = s.tokens.length + 1 ∧
    ((parseHtmlToNewline s).2.tokens.getLast?).map Token.ttype
      = some "block_html" := by
  unfold parseHtmlToNewline
  cases hbs : blankSearch s.src s.cursor with
  | none =>
    dsimp only []
    unfold State.append_token
    exact ⟨by simp, by rw [List.getLast?_concat]; rfl⟩
  | some pr =>
    cases pr with
    | mk st b =>
      dsimp only []
      unfold State.append_token
      exact ⟨by simp, by rw [List.getLast?_concat]; rfl⟩

/-- C5: a bare HTML tag match in rule 7 — its marker is no
comment/processing-instruction/declaration/CDATA opener and its tag name
is in neither the pre-formatted nor the block-level tag set — first
merges into an open paragraph if one exists (no token appended);
otherwise it produces a block_html token exactly when the remainder of
the line parses as a complete open (resp. close) tag followed by only
whitespace, and declines with the state unchanged otherwise. -/
theorem C5_html_rule7 (marker : Src) (m : RMatch) (s : State)
    (h1 : (marker == s2l "<!--") = false)
    (h2 : (marker == s2l "<?") = false)
    (h3 : (marker == s2l "<![CDATA[") = false)
    (h4 : (s2l "<!").isPrefixOf marker = false) :
    (parse_raw_html m s = rawHtmlDispatch (pyStrip (m.g0 s.src)) m s) ∧
    ((s2l "</").isPrefixOf marker = false →
      PRE_TAGS.contains (String.mk ((marker.drop 1).map Char.toLower)) = false →
      BLOCK_TAGS.contains (String.mk ((marker.drop 1).map Char.toLower)) = false →
      (∀ e s1, s.append_paragraph = (some e, s1) →
        rawHtmlDispatch marker m s = (some e, s1) ∧
        s1.tokens.length = s.tokens.length) ∧
      ((s.append_paragraph).1 = none →
        openTagEnd s.src m.mend s.find_line_end = true →
        rawHtmlDispatch marker m s = parseHtmlToNewline s ∧
        (parseHtmlToNewline s).2.tokens.length = s.tokens.length + 1 ∧
        ((parseHtmlToNewline s).2.tokens.getLast?).map Token.ttype
          = some "block_html") ∧
      ((s.append_paragraph).1 = none →
        openTagEnd s.src m.mend s.find_line_end = false →
        rawHtmlDispatch marker m s = (none, s))) ∧
    ((s2l "</").isPrefixOf marker = true →
      BLOCK_TAGS.contains (String.mk ((marker.drop 2).map Char.toLower)) = false →
      (∀ e s1, s.append_paragraph = (some e, s1) →
        rawHtmlDispatch marker m s = (some e, s1) ∧
        s1.tokens.length = s.tokens.length) ∧
      ((s.append_paragraph).1 = none →
        closeTagEnd s.src m.mend s.find_line_end = true →
        rawHtmlDispatch marker m s = parseHtmlToNewline s ∧
        (parseHtmlToNewline s).2.tokens.length = s.tokens.length + 1 ∧
        ((parseHtmlToNewline s).2.tokens.getLast?).map Token.ttype
          = some "block_html") ∧
      ((s.append_paragraph).1 = none →
        closeTagEnd s.src m.mend s.find_line_end = false →
        rawHtmlDispatch marker m s = (none, s))) := by
  refine ⟨rfl, ?_, ?_⟩
  · intro h5 h6 h7
    unfold rawHtmlDispatch
    simp only [h1, h2, h3, h4, h5, h6, h7, Bool.false_eq_true, if_false]
    refine ⟨?_, ?_, ?_⟩
    · intro e s1 hap
      rw [hap]
      exact ⟨rfl, append_paragraph_some_len hap⟩
    · intro hap hend
      cases happ : s.append_paragraph with
      | mk o s1 =>
        rw [happ] at hap
        dsimp only [] at hap
        subst hap
        dsimp only []
        rw [hend]
        exact ⟨rfl, (parseHtmlToNewline_tokens s).1,
          (parseHtmlToNewline_tokens s).2⟩
    · intro hap hend
      cases happ : s.append_paragraph with
      | mk o s1 =>
        rw [happ] at hap
        dsimp only [] at hap
        subst hap
        dsimp only []
        rw [hend]
        rfl
  · intro h5 h7
    unfold rawHtmlDispatch
    simp only [h1, h2, h3, h4, h5, h7, Bool.false_eq_true, if_false, if_true]
    refine ⟨?_, ?_, ?_⟩
    · intro e s1 hap
      rw [hap]
      exact ⟨rfl, append_paragraph_some_len hap⟩
    · intro hap hend
      cases happ : s.append_paragraph with
      | mk o s1 =>
        rw [happ] at hap
        dsimp only [] at hap
        subst hap
        dsimp only []
        rw [hend]
        exact ⟨rfl, (parseHtmlToNewline_tokens s).1,
          (parseHtmlToNewline_tokens s).2⟩
    · intro hap hend
      cases happ : s.append_paragraph with
      | mk o s1 =>
        rw [happ] at hap
        dsimp only [] at hap
        subst hap
        dsimp only []
        rw [hend]
        rfl

/-- C5 (witness): the rule-7 theorem applied on concrete inputs: the
bare tag "<a>" alone on its line is accepted as block_html, "<a>text" is
rejected, and the bare close tag "</a>" alone on its line is accepted. -/
theorem C5_html_witness :
    (rawHtmlDispatch (s2l "<a") ⟨"raw_html", 0, 2, [("g1", s2l "<a")]⟩
        (mkState (s2l "<a>\nx"))
      = parseHtmlToNewline (mkState (s2l "<a>\nx")) ∧
     (parseHtmlToNewline (mkState (s2l "<a>\nx"))).2.tokens.length
      = (mkState (s2l "<a>\nx")).tokens.length + 1 ∧
     ((parseHtmlToNewline (mkState (s2l "<a>\nx"))).2.tokens.getLast?).map
        Token.ttype = some "block_html") ∧
    (rawHtmlDispatch (s2l "<a") ⟨"raw_html", 0, 2, [("g1", s2l "<a")]⟩
        (mkState (s2l "<a>text"))
      = (none, mkState (s2l "<a>text"))) ∧
    (rawHtmlDispatch (s2l "</a") ⟨"raw_html", 0, 3, [("g1", s2l "</a")]⟩
        (mkState (s2l "</a>\nx"))
      = parseHtmlToNewline (mkState (s2l "</a>\nx"))) :=
  ⟨((C5_html_rule7 (s2l "<a") ⟨"raw_html", 0, 2, [("g1", s2l "<a")]⟩
      (mkState (s2l "<a>\nx")) (by decide) (by decide) (by decide)
      (by decide)).2.1 (by decide) (by decide) (by decide)).2.1
      rfl (by decide),
   ((C5_html_rule7 (s2l "<a") ⟨"raw_html", 0, 2, [("g1", s2l "<a")]⟩
      (mkState (s2l "<a>text")) (by decide) (by decide) (by decide)
      (by decide)).2.1 (by decide) (by decide) (by decide)).2.2
      rfl (by decide),
   (((C5_html_rule7 (s2l "</a") ⟨"raw_html", 0, 3, [("g1", s2l "</a")]⟩
      (mkState (s2l "</a>\nx")) (by decide) (by decide) (by decide)
      (by decide)).2.2 (by decide) (by decide)).2.1
      rfl (by decide)).1⟩

/-- C6: on a Setext underline match, a trailing open paragraph token is
converted in place into a heading token keeping the paragraph's text,
with level 1 when the underline is "=" and level 2 otherwise ("-"), the
token count unchanged; with no trailing paragraph the position is
re-matched against only the thematic_break and list rules, whose handler
is invoked on a match, and the handler declines when neither matches. -/
theorem C6_setex_heading (conf : Conf)
    (parseFn : List String → State → State) (m : RMatch) (s : State) :
    (∀ last, s.tokens.getLast? = some last → last.ttype = "paragraph" →
      parse_setex_heading conf parseFn m s =
        (some (m.mend + 1),
         { s with tokens := s.tokens.dropLast ++
             [Token.mk "heading" last.text last.raw
               [("level", AttrV.nat (if m.grp "setext_1" == ['='] then 1 else 2))]
               last.children] }) ∧
      (parse_setex_heading conf parseFn m s).2.tokens.length
        = s.tokens.length) ∧
    (∀ last, s.tokens.getLast? = some last → last.ttype ≠ "paragraph" →
      parse_setex_heading conf parseFn m s = setexRematch conf parseFn s) ∧
    (s.tokens.getLast? = none →
      parse_setex_heading conf parseFn m s = setexRematch conf parseFn s) ∧
    (∀ m2, scMatchAt ["thematic_break", "list"] s.src s.cursor = some m2 →
      setexRematch conf parseFn s =
        (if m2.rule == "thematic_break" then parse_thematic_break m2 s
         else parse_list conf parseFn m2 s)) ∧
    (scMatchAt ["thematic_break", "list"] s.src s.cursor = none →
      setexRematch conf parseFn s = (none, s)) := by
  refine ⟨?_, ?_, ?_, ?_, ?_⟩
  · intro last hl hp
    unfold parse_setex_heading
    rw [hl]
    dsimp only []
    rw [if_pos (show (last.ttype == "paragraph") = true from by simp [hp])]
    refine ⟨rfl, ?_⟩
    exact tokens_dropLast_len hl _
  · intro last hl hp
    unfold parse_setex_heading
    rw [hl]
    dsimp only []
    rw [if_neg (show ¬ (last.ttype == "paragraph") = true from by simp [hp])]
  · intro hl
    unfold parse_setex_heading
    rw [hl]
  · intro m2 hm2
    unfold setexRematch
    rw [hm2]
  · intro hm2
    unfold setexRematch
    rw [hm2]

/-- C6 (witness): the Setext theorem applied on concrete states: under
"Title\n===\n" the paragraph becomes a level-1 heading; with no trailing
paragraph, "---\n" is re-dispatched as a thematic break. -/
theorem C6_setex_witness :
    (parse_setex_heading defaultConf (parseK defaultConf 10)
        ⟨"setex_heading", 6, 9, [("setext_1", s2l "=")]⟩
        { mkState (s2l "Title\n===\n") with
          cursor := 6
          tokens := [Token.mk "paragraph" (some (s2l "Title\n")) none [] none] }
      = (some 10,
         { mkState (s2l "Title\n===\n") with
           cursor := 6
           tokens := [Token.mk "heading" (some (s2l "Title\n")) none
             [("level", AttrV.nat 1)] none] })) ∧
    (parse_setex_heading defaultConf (parseK defaultConf 4)
        ⟨"setex_heading", 0, 3, [("setext_1", s2l "-")]⟩ (mkState (s2l "---\n"))
      = setexRematch defaultConf (parseK defaultConf 4) (mkState (s2l "---\n"))) :=
  ⟨by
    have h := ((C6_setex_heading defaultConf (parseK defaultConf 10)
        ⟨"setex_heading", 6, 9, [("setext_1", s2l "=")]⟩
        { mkState (s2l "Title\n===\n") with
          cursor := 6
          tokens := [Token.mk "paragraph" (some (s2l "Title\n")) none [] none] }).1
      (Token.mk "paragraph" (some (s2l "Title\n")) none [] none) rfl rfl).1
    exact h,
   (C6_setex_heading defaultConf (parseK defaultConf 4)
      ⟨"setex_heading", 0, 3, [("setext_1", s2l "-")]⟩
      (mkState (s2l "---\n"))).2.2.1 rfl⟩

lemma append_paragraph_refLinks (s : State)
    (rl : List (Src × List (String × AttrV))) :
    ({ s with refLinks := rl } : State).append_paragraph
      = ((s.append_paragraph).1,
         { (s.append_paragraph).2 with refLinks := rl }) := by
  unfold State.append_paragraph
  rw [show ({ s with refLinks := rl } : State).tokens = s.tokens from rfl]
  cases hl : s.tokens.getLast? with
  | none => rfl
  | some last =>
    dsimp only []
    split
    · rfl
    · rfl

/-- C7: a reference-link definition whose normalized key is already in
the ref_links environment leaves the environment unchanged (the first
definition for a key wins), yet the returned end position is the same as
it would be over any other stored environment — the definition is still
fully parsed — and an accepted definition advances the cursor. -/
theorem C7_ref_first_wins (m : RMatch) (s : State)
    (rl : List (Src × List (String × AttrV)))
    (hkey : s.refLinks.any (fun kv => kv.fst == unikey (m.grp "link_1"))
      = true) :
    (parse_ref_link m s).2.refLinks = s.refLinks ∧
    (parse_ref_link m s).1 = (parse_ref_link m { s with refLinks := rl }).1 ∧
    (s.cursor = m.mstart → m.mstart ≤ m.mend → m.mstart < s.cursorMax →
      ∀ e, (parse_ref_link m s).1 = some e → s.cursor < e) := by
  refine ⟨?_, ?_, ?_⟩
  · unfold parse_ref_link
    cases hap : s.append_paragraph with
    | mk o s1 =>
      cases o with
      | some e =>
        have := (append_paragraph_fields s).2.2.2.1
        rw [hap] at this
        exact this
      | none =>
        dsimp only []
        split
        · rfl
        · cases hsc : refLinkScan s.src s.cursorMax m.mend with
          | none => rfl
          | some pr =>
            cases pr with
            | mk e attrs =>
              dsimp only []
  · unfold parse_ref_link
    rw [append_paragraph_refLinks s rl]
    rw [show ({ s with refLinks := rl } : State).src = s.src from rfl]
    rw [show ({ s with refLinks := rl } : State).cursorMax = s.cursorMax
      from rfl]
    cases hap : s.append_paragraph with
    | mk o s1 =>
      cases o with
      | some e => rfl
      | none =>
        dsimp only []
        split
        · rfl
        · cases hsc : refLinkScan s.src s.cursorMax m.mend with
          | none => rfl
          | some pr =>
            cases pr with
            | mk e attrs =>
              dsimp only []
              split <;> rfl
  · intro hc hme hmax e h1
    rw [show parse_ref_link m s =
        (match s.append_paragraph with
         | (some e, s1) => (some e, s1)
         | (none, _) =>
           if (unikey (m.grp "link_1")).isEmpty then (none, s)
           else
             match refLinkScan s.src s.cursorMax m.mend with
             | none => (none, s)
             | some (e, attrs) =>
               if s.refLinks.any (fun kv => kv.fst == unikey (m.grp "link_1"))
               then (some e, s)
               else
                 (some e,
                  { s with refLinks :=
                      s.refLinks ++ [(unikey (m.grp "link_1"), attrs)] }))
      from rfl] at h1
    cases hap : s.append_paragraph with
    | mk o s1 =>
      rw [hap] at h1
      cases o with
      | some e0 =>
        dsimp only [] at h1
        have he : e0 = e := by simpa using h1
        have he0 : e0 = s.find_line_end := by
          apply append_paragraph_some s
          rw [hap]
        have := find_line_end_gt s (by omega)
        omega
      | none =>
        dsimp only [] at h1
        by_cases hk : (unikey (m.grp "link_1")).isEmpty = true
        · rw [if_pos hk] at h1
          cases h1
        · rw [if_neg hk] at h1
          cases hsc : refLinkScan s.src s.cursorMax m.mend with
          | none => rw [hsc] at h1; cases h1
          | some pr =>
            cases pr with
            | mk e1 attrs =>
              rw [hsc] at h1
              dsimp only [] at h1
              rw [hkey] at h1
              rw [if_pos rfl] at h1
              have hgt := refLinkScan_gt hsc
              have he : e1 = e := by simpa using h1
              omega

/-- C7 (witness): the first-definition-wins theorem applied on the
duplicate definition "[a]: /u" over an environment already holding key
"a": the stored entry is untouched, the end position matches the one
computed over the empty environment, and the cursor advances. -/
theorem C7_ref_witness :
    (parse_ref_link ⟨"ref_link", 0, 4, [("link_1", s2l "a")]⟩
        { mkState (s2l "[a]: /u\n") with
          refLinks := [(s2l "a", [("url", AttrV.str (s2l "/old"))])]
        }).2.refLinks
      = [(s2l "a", [("url", AttrV.str (s2l "/old"))])] ∧
    (parse_ref_link ⟨"ref_link", 0, 4, [("link_1", s2l "a")]⟩
        { mkState (s2l "[a]: /u\n") with
          refLinks := [(s2l "a", [("url", AttrV.str (s2l "/old"))])] }).1
      = (parse_ref_link ⟨"ref_link", 0, 4, [("link_1", s2l "a")]⟩
          { { mkState (s2l "[a]: /u\n") with
              refLinks := [(s2l "a", [("url", AttrV.str (s2l "/old"))])] } with
            refLinks := [] }).1 ∧
    (∀ e, (parse_ref_link ⟨"ref_link", 0, 4, [("link_1", s2l "a")]⟩
        { mkState (s2l "[a]: /u\n") with
          refLinks := [(s2l "a", [("url", AttrV.str (s2l "/old"))])] }).1
        = some e →
      ({ mkState (s2l "[a]: /u\n") with
         refLinks := [(s2l "a", [("url", AttrV.str (s2l "/old"))])]
       } : State).cursor < e) := by
  have h := C7_ref_first_wins ⟨"ref_link", 0, 4, [("link_1", s2l "a")]⟩
    { mkState (s2l "[a]: /u\n") with
      refLinks := [(s2l "a", [("url", AttrV.str (s2l "/old"))])] }
    [] (by decide)
  exact ⟨h.1, h.2.1, h.2.2 (by decide) (by decide) (by decide)⟩

/-- C8: a backtick fence whose info string contains a backtick makes the
fenced-code handler decline with the state untouched; the dispatch loop
then consumes exactly one line at the cursor as paragraph text before
continuing; and a tilde fence with backticks in its info string is not
rejected — it still appends a block_code token. -/
theorem C8_fenced_backtick (m : RMatch) (s : State) :
    ((m.grp "fenced_2").headD 'x' = tick → (m.grp "fenced_3") ≠ [] →
      (m.grp "fenced_3").contains tick = true →
      parse_fenced_code m s = (none, s)) ∧
    (∀ rules conf parseFn fuel m2,
      s.cursor < s.cursorMax →
      searchSC rules s.src s.cursor = some m2 → m2.mstart = s.cursor →
      parseMethod conf parseFn m2 s = (none, s) →
      parseLoop (searchSC rules) (parseMethod conf parseFn) (fuel + 1) s =
        parseLoop (searchSC rules) (parseMethod conf parseFn) fuel
          { s.add_paragraph (s.get_text s.find_line_end) with
            cursor := s.find_line_end }) ∧
    ((m.grp "fenced_2").headD 'x' = '~' →
      (parse_fenced_code m s).2.tokens.length = s.tokens.length + 1 ∧
      ((parse_fenced_code m s).2.tokens.getLast?).map Token.ttype
        = some "block_code" ∧
      (parse_fenced_code m s).1.isSome = true) := by
  refine ⟨?_, ?_, ?_⟩
  · intro hh hne hct
    have h1 : (m.grp "fenced_3").isEmpty = false := by
      cases hg : m.grp "fenced_3" with
      | nil => exact absurd hg hne
      | cons a l => rfl
    unfold parse_fenced_code
    dsimp only []
    rw [if_pos (show (!(m.grp "fenced_3").isEmpty
        && ((m.grp "fenced_2").headD 'x' == tick)
        && (m.grp "fenced_3").contains tick) = true from by
      rw [h1, hh, hct]
      rfl)]
  · intro rules conf parseFn fuel m2 hcm hsr hst hpm
    conv_lhs => rw [parseLoop]
    rw [if_pos hcm, hsr]
    dsimp only []
    rw [if_neg (show ¬ s.cursor < m2.mstart from by omega)]
    unfold parseLoopStep
    rw [hpm]
    rfl
  · intro hh
    unfold parse_fenced_code
    dsimp only []
    rw [if_neg (show ¬ (!(m.grp "fenced_3").isEmpty
        && ((m.grp "fenced_2").headD 'x' == tick)
        && (m.grp "fenced_3").contains tick) = true from by
      rw [hh, show (('~' : Char) == tick) = false from by decide]
      simp)]
    dsimp only []
    unfold State.append_token
    refine ⟨by simp, ?_, rfl⟩
    dsimp only []
    rw [List.getLast?_concat]
    rfl

/-- C8 (witness): the backtick-info theorem applied on concrete fences:
the handler declines on the backtick fence of "```a`b\nx\n" (and the
dispatch loop then consumes one line as paragraph text), while the tilde
fence of "~~~q`r\ncode\n~~~\n" is accepted as block_code. -/
theorem C8_fenced_witness :
    (parse_fenced_code
        ⟨"fenced_code", 0, 6,
          [("fenced_1", []), ("fenced_2", s2l "```"), ("fenced_3", s2l "a`b")]⟩
        (mkState (s2l "```a`b\nx\n"))
      = (none, mkState (s2l "```a`b\nx\n"))) ∧
    (parseLoop (searchSC DEFAULT_RULES)
        (parseMethod defaultConf (parseK defaultConf 9)) 10
        (mkState (s2l "```a`b\nx\n")) =
      parseLoop (searchSC DEFAULT_RULES)
        (parseMethod defaultConf (parseK defaultConf 9)) 9
        { (mkState (s2l "```a`b\nx\n")).add_paragraph
            ((mkState (s2l "```a`b\nx\n")).get_text
              (mkState (s2l "```a`b\nx\n")).find_line_end) with
          cursor := (mkState (s2l "```a`b\nx\n")).find_line_end }) ∧
    ((parse_fenced_code
        ⟨"fenced_code", 0, 6,
          [("fenced_1", []), ("fenced_2", s2l "~~~"), ("fenced_3", s2l "q`r")]⟩
        (mkState (s2l "~~~q`r\ncode\n~~~\n"))).2.tokens.length
      = (mkState (s2l "~~~q`r\ncode\n~~~\n")).tokens.length + 1) :=
  ⟨(C8_fenced_backtick
      ⟨"fenced_code", 0, 6,
        [("fenced_1", []), ("fenced_2", s2l "```"), ("fenced_3", s2l "a`b")]⟩
      (mkState (s2l "```a`b\nx\n"))).1 (by decide) (by decide) (by decide),
   (C8_fenced_backtick
      ⟨"fenced_code", 0, 6,
        [("fenced_1", []), ("fenced_2", s2l "```"), ("fenced_3", s2l "a`b")]⟩
      (mkState (s2l "```a`b\nx\n"))).2.1 DEFAULT_RULES defaultConf
      (parseK defaultConf 9) 9
      ⟨"fenced_code", 0, 6,
        [("fenced_1", []), ("fenced_2", s2l "```"), ("fenced_3", s2l "a`b")]⟩
      (by decide) (by decide) (by decide) (by rfl),
   ((C8_fenced_backtick
      ⟨"fenced_code", 0, 6,
        [("fenced_1", []), ("fenced_2", s2l "~~~"), ("fenced_3", s2l "q`r")]⟩
      (mkState (s2l "~~~q`r\ncode\n~~~\n"))).2.2 (by decide)).1⟩

lemma blankLine1_le : ∀ l n, blankLine1 l = some n → n ≤ l.length := by
  intro l
  induction l with
  | nil => intro n h; simp [blankLine1] at h
  | cons c r ih =>
    intro n h
    simp only [blankLine1] at h
    split at h
    · simp at h
      simp
      omega
    · split at h
      · cases hb : blankLine1 r with
        | none => rw [hb] at h; simp at h
        | some k =>
          rw [hb] at h
          simp at h
          have := ih k hb
          simp
          omega
      · cases h

lemma blankRunGo_none_head {f : Nat} {l : Src}
    (hf : 1 ≤ f) (h : blankRunGo f l = none) : blankLine1 l = none := by
  cases f with
  | zero => omega
  | succ f2 =>
    unfold blankRunGo at h
    cases hb : blankLine1 l with
    | none => rfl
    | some n =>
      rw [hb] at h
      dsimp only [] at h
      cases hr : blankRunGo f2 (l.drop n) with
      | some k => rw [hr] at h; cases h
      | none => rw [hr] at h; cases h

lemma blankRun_maximal : ∀ fuel (l : Src) (n : Nat), l.length < fuel →
    blankRunGo fuel l = some n → blankLine1 (l.drop n) = none := by
  intro fuel
  induction fuel with
  | zero => intro l n h1 h2; simp [blankRunGo] at h2
  | succ f ih =>
    intro l n h1 h2
    unfold blankRunGo at h2
    cases hb : blankLine1 l with
    | none => rw [hb] at h2; cases h2
    | some n1 =>
      rw [hb] at h2
      dsimp only [] at h2
      have hn1 : 1 ≤ n1 := blankLine1_pos l n1 hb
      have hle : n1 ≤ l.length := blankLine1_le l n1 hb
      cases hr : blankRunGo f (l.drop n1) with
      | some k =>
        rw [hr] at h2
        cases h2
        have hlen2 : (l.drop n1).length < f := by
          simp [List.length_drop]
          omega
        have hmax := ih (l.drop n1) k hlen2 hr
        rw [List.drop_drop] at hmax
        exact hmax
      | none =>
        rw [hr] at h2
        cases h2
        have hne : l ≠ [] := by
          intro he
          rw [he] at hb
          simp [blankLine1] at hb
        have hlpos : 1 ≤ l.length := by
          cases l with
          | nil => exact absurd rfl hne
          | cons a r => simp
        exact blankRunGo_none_head (by omega) hr

lemma tryRuleAt_blank_run {src : Src} {p : Nat} {m : RMatch}
    (h : tryRuleAt "blank_line" src p = some m) :
    blankRun (src.drop p) = some (m.mend - p) := by
  unfold tryRuleAt at h
  split at h
  · have hrw : tryRuleCore "blank_line" (src.drop p) =
        (blankRun (src.drop p)).map
          (fun n => (n, ([] : List (String × Src)))) := rfl
    rw [hrw] at h
    cases hb : blankRun (src.drop p) with
    | none => rw [hb] at h; cases h
    | some n =>
      rw [hb] at h
      have h2 : some (⟨"blank_line", p, p + n, []⟩ : RMatch) = some m := h
      cases h2
      congr 1
      dsimp only []
      omega
  · cases h

/-- C10: the blank_line handler appends exactly one token of type
blank_line with no text, raw or children and returns the position
immediately after the matched run; the match covers a maximal run of
blank lines — the matcher consumed a blank-line run and no further
blank line follows the match end. -/
theorem C10_blank_run (m : RMatch) (s : State) (p : Nat)
    (hm : tryRuleAt "blank_line" s.src p = some m) :
    parse_blank_line m s =
      (some m.mend,
       s.append_token (Token.mk "blank_line" none none [] none)) ∧
    (s.append_token (Token.mk "blank_line" none none [] none)).tokens
      = s.tokens ++ [Token.mk "blank_line" none none [] none] ∧
    blankRun (s.src.drop p) = some (m.mend - p) ∧
    blankLine1 (s.src.drop m.mend) = none := by
  have hrun := tryRuleAt_blank_run hm
  have hfacts := tryRuleAt_facts hm
  refine ⟨rfl, rfl, hrun, ?_⟩
  have hmax := blankRun_maximal ((s.src.drop p).length + 1) (s.src.drop p)
    (m.mend - p) (by omega) hrun
  rw [List.drop_drop] at hmax
  rw [show p + (m.mend - p) = m.mend from by
    have := hfacts.2.2.1
    omega] at hmax
  exact hmax

/-- C10 (witness): the blank-run theorem applied on the concrete run
" \n\t\n\nx": the three blank lines are matched as one run of length 5,
one blank_line token is appended, and no blank line follows. -/
theorem C10_blank_witness :
    parse_blank_line ⟨"blank_line", 0, 5, []⟩ (mkState (s2l " \n\t\n\nx"))
      = (some 5,
         (mkState (s2l " \n\t\n\nx")).append_token
           (Token.mk "blank_line" none none [] none)) ∧
    ((mkState (s2l " \n\t\n\nx")).append_token
        (Token.mk "blank_line" none none [] none)).tokens
      = (mkState (s2l " \n\t\n\nx")).tokens
          ++ [Token.mk "blank_line" none none [] none] ∧
    blankRun ((mkState (s2l " \n\t\n\nx")).src.drop 0) = some 5 ∧
    blankLine1 ((mkState (s2l " \n\t\n\nx")).src.drop 5) = none :=
  C10_blank_run ⟨"blank_line", 0, 5, []⟩ (mkState (s2l " \n\t\n\nx")) 0
    (by decide)

end Mistune
